import Mathlib

/-!
Verification of the Minesweeper rule engine (src/main.py) against its
natural-language specification.

The embedding models the game core: the grid, mine placement
(Minesweeper.place_mines), flood-fill reveal (Minesweeper.reveal_cell),
chord reveal (Minesweeper.chord_reveal), flag toggling and the click
dispatcher (Minesweeper.handle_click), win detection
(Minesweeper.check_win), the reset (Minesweeper.reset_game), the three
power-ups (RevealAreaPowerUp, TimeFreezeePowerUp, SafetyNetPowerUp),
combo tracking, and achievement evaluation (AchievementManager).

Modelling conventions:
- Coordinates are pairs of integers (x, y); the Python lists-of-lists
  grid / revealed / flagged become total functions from coordinates,
  mutated with Function.update.  Out-of-bounds coordinates are simply
  points outside the 0 <= x < GRID_SIZE square, matching the explicit
  bounds checks of the source.
- Wall-clock timestamps (time.time) are rationals.  The recursive
  flood fill reads the clock once per recursive call; all those reads
  happen within the same fraction of a second, so the model passes a
  single timestamp to a reveal call and its recursive children (the
  gap between two consecutive reveals inside one flood fill is 0).
- The recursion of reveal_cell is embedded with explicit fuel; the
  termination claims are proved as fuel-indifference theorems.
- Rendering, particles, fonts, audio and the pygame event plumbing are
  outside the model, as in the spec.  The one piece of game state the
  draw routine mutates, elapsed_time, is modelled (updateTimer).
-/

namespace Mines

abbrev Coord := ℤ × ℤ

/-- The three `[-1, 0, 1]` offset values used by every neighbourhood
loop of the source. -/
def offs : List ℤ := [-1, 0, 1]

/-- The 9 neighbourhood offsets in the iteration order of the Python
nested loops (`for dx in [-1,0,1]: for dy in [-1,0,1]`). -/
def nbhd : List (ℤ × ℤ) := offs.flatMap (fun dx => offs.map (fun dy => (dx, dy)))

/-- The `range(-2, 3)` offsets of RevealAreaPowerUp.activate. -/
def offs2 : List ℤ := [-2, -1, 0, 1, 2]

/-- Bounds check `0 <= x < GRID_SIZE and 0 <= y < GRID_SIZE`. -/
def inBounds (n : ℤ) (p : Coord) : Bool :=
  decide (0 ≤ p.1) && decide (p.1 < n) && decide (0 ≤ p.2) && decide (p.2 < n)

/-- The difficulty enum: (grid size, mine count) pairs. -/
inductive Diff where
  | easy
  | medium
  | hard
deriving DecidableEq

def Diff.size : Diff → ℤ
  | .easy => 8
  | .medium => 15
  | .hard => 20

def Diff.mineCount : Diff → ℕ
  | .easy => 10
  | .medium => 35
  | .hard => 80

/-- Achievement unlock flags (AchievementManager).  The theme-explorer
achievement depends on the theme-cycling UI, which is outside the core;
the remaining five predicates are modelled. -/
structure AchState where
  firstWin : Bool
  speedDemon : Bool
  comboMaster : Bool
  perfectionist : Bool
  hardVictory : Bool
deriving DecidableEq

def AchState.locked : AchState := ⟨false, false, false, false, false⟩

/-- The mutable game state of the Minesweeper class (the fields the
core logic reads or writes). -/
structure GameState where
  difficulty : Diff
  gridSize : ℤ
  minesTotal : ℕ
  grid : Coord → ℤ
  revealed : Coord → Bool
  flagged : Coord → Bool
  gameOver : Bool
  win : Bool
  firstClick : Bool
  startTime : Option ℚ
  elapsedTime : ℚ
  minesLeft : ℤ
  combo : ℕ
  maxCombo : ℕ
  lastRevealTime : ℚ
  misplacedFlags : List Coord
  revealActive : Bool
  freezeActive : Bool
  freezeStart : Option ℚ
  frozenTime : ℚ
  safetyActive : Bool
  safetyStart : Option ℚ
  chargesReveal : ℕ
  chargesFreeze : ℕ
  chargesSafety : ℕ
  achievements : AchState

/-- Minesweeper.reset_game: rebuilds the board and per-session fields.
It does not touch power-up state, charges, misplaced_flags or
achievements (the source resets none of them). -/
def resetGame (s : GameState) : GameState :=
  { s with
    grid := fun _ => 0
    revealed := fun _ => false
    flagged := fun _ => false
    gameOver := false
    win := false
    firstClick := true
    startTime := none
    elapsedTime := 0
    minesLeft := (s.minesTotal : ℤ)
    combo := 0
    maxCombo := 0
    lastRevealTime := 0 }

/-- Difficulty-button handling: set difficulty, update_grid_size,
reset_game. -/
def applyDifficulty (d : Diff) (s : GameState) : GameState :=
  resetGame { s with difficulty := d, gridSize := d.size, minesTotal := d.mineCount }

/-- The state right after Minesweeper.__init__ (difficulty MEDIUM,
3 charges per power-up, no misplaced flags, everything locked). -/
def initState : GameState :=
  applyDifficulty .medium
    { difficulty := .medium
      gridSize := 15
      minesTotal := 35
      grid := fun _ => 0
      revealed := fun _ => false
      flagged := fun _ => false
      gameOver := false
      win := false
      firstClick := true
      startTime := none
      elapsedTime := 0
      minesLeft := 35
      combo := 0
      maxCombo := 0
      lastRevealTime := 0
      misplacedFlags := []
      revealActive := false
      freezeActive := false
      freezeStart := none
      frozenTime := 0
      safetyActive := false
      safetyStart := none
      chargesReveal := 3
      chargesFreeze := 3
      chargesSafety := 3
      achievements := AchState.locked }

/-- The candidate predicate of Minesweeper.place_mines: in the grid and
`abs(x - first_x) > 1 or abs(y - first_y) > 1`. -/
def candidate (n : ℤ) (fc : Coord) (m : Coord) : Bool :=
  inBounds n m && (decide (1 < |m.1 - fc.1|) || decide (1 < |m.2 - fc.2|))

/-- One mine of Minesweeper.place_mines: set the cell to -1, then for
each of the 9 offsets increment the in-bounds neighbours that are not
mines. -/
def placeMine (n : ℤ) (g : Coord → ℤ) (m : Coord) : Coord → ℤ :=
  nbhd.foldl
    (fun h d =>
      let q : Coord := (m.1 + d.1, m.2 + d.2)
      if inBounds n q && decide (h q ≠ -1) then Function.update h q (h q + 1) else h)
    (Function.update g m (-1))

/-- Minesweeper.place_mines applied to the sampled list of mine
positions. -/
def placeMinesGrid (n : ℤ) (g : Coord → ℤ) (L : List Coord) : Coord → ℤ :=
  L.foldl (placeMine n) g

/-- The combo-tracking block at the top of Minesweeper.reveal_cell:
gap < 1.0 increments the combo and raises max_combo; otherwise the
combo resets to 1 (and max_combo is left alone). -/
def comboUpdate (now : ℚ) (s : GameState) : GameState :=
  if now - s.lastRevealTime < 1 then
    { s with combo := s.combo + 1
             maxCombo := max s.maxCombo (s.combo + 1)
             lastRevealTime := now }
  else
    { s with combo := 1, lastRevealTime := now }

/-- Minesweeper.reveal_cell, with explicit fuel for the recursion.
Skips out-of-bounds, revealed and flagged cells; otherwise updates the
combo state, marks the cell revealed, and if its value is 0 recurses on
the 9 neighbourhood offsets in source order. -/
def revealCell : ℕ → ℚ → GameState → Coord → GameState
  | 0, _, s, _ => s
  | f + 1, now, s, p =>
    if !inBounds s.gridSize p || s.revealed p || s.flagged p then s
    else
      let s1 := comboUpdate now s
      let s2 := { s1 with revealed := Function.update s1.revealed p true }
      if s2.grid p = 0 then
        nbhd.foldl (fun t d => revealCell f now t (p.1 + d.1, p.2 + d.2)) s2
      else s2

/-- Flag count of Minesweeper.chord_reveal: in-bounds flagged cells
among the 9 neighbourhood offsets. -/
def chordFlagCount (s : GameState) (p : Coord) : ℕ :=
  (nbhd.filter (fun d =>
    inBounds s.gridSize (p.1 + d.1, p.2 + d.2) && s.flagged (p.1 + d.1, p.2 + d.2))).length

/-- The neighbour loop of Minesweeper.chord_reveal once the flag count
matched: walk the offsets in order; an unflagged unrevealed mine sets
game_over and aborts the loop (returning True); other unflagged
unrevealed in-bounds neighbours are revealed. -/
def chordScan (f : ℕ) (now : ℚ) (p : Coord) : List (ℤ × ℤ) → GameState → GameState
  | [], s => s
  | d :: ds, s =>
    let q : Coord := (p.1 + d.1, p.2 + d.2)
    if inBounds s.gridSize q && !s.flagged q && !s.revealed q then
      if s.grid q = -1 then { s with gameOver := true }
      else chordScan f now p ds (revealCell f now s q)
    else chordScan f now p ds s

/-- Minesweeper.chord_reveal: False (no effect) unless the target is
revealed with a positive count; on a flag-count match it runs the
neighbour loop and returns True. -/
def chordReveal (f : ℕ) (now : ℚ) (s : GameState) (p : Coord) : GameState × Bool :=
  if !s.revealed p || s.grid p ≤ 0 then (s, false)
  else if chordFlagCount s p = s.grid p then
    (chordScan f now p nbhd s, true)
  else (s, false)

/-- The list of all grid coordinates. -/
def cellList (n : ℤ) : List Coord :=
  (List.range n.toNat).flatMap
    (fun (x : ℕ) => (List.range n.toNat).map (fun (y : ℕ) => ((x : ℤ), (y : ℤ))))

/-- The unrevealed-cell count of Minesweeper.check_win. -/
def unrevealedCount (s : GameState) : ℕ :=
  ((cellList s.gridSize).filter (fun q => !s.revealed q)).length

/-- Minesweeper.check_win: win exactly when the number of unrevealed
cells equals the mine count (high-score bookkeeping is outside the
model). -/
def checkWin (s : GameState) : GameState :=
  if unrevealedCount s = s.minesTotal then { s with win := true } else s

/-- RevealAreaPowerUp.activate: set active, then reveal every in-bounds,
unrevealed, non-mine cell within Chebyshev distance 2 of the target
(outer dx loop, inner dy loop). -/
def revealAreaActivate (f : ℕ) (now : ℚ) (p : Coord) (s : GameState) : GameState :=
  offs2.foldl
    (fun t dx => offs2.foldl
      (fun t2 dy =>
        let q : Coord := (p.1 + dx, p.2 + dy)
        if inBounds t2.gridSize q && !t2.revealed q && decide (t2.grid q ≠ -1) then
          revealCell f now t2 q
        else t2)
      t)
    { s with revealActive := true }

/-- TimeFreezeePowerUp.activate: set active, record the start time and
capture the current elapsed_time. -/
def freezeActivate (now : ℚ) (s : GameState) : GameState :=
  { s with freezeActive := true, freezeStart := some now, frozenTime := s.elapsedTime }

/-- SafetyNetPowerUp.activate: set active and record the start time. -/
def safetyActivate (now : ℚ) (s : GameState) : GameState :=
  { s with safetyActive := true, safetyStart := some now }

/-- PowerUp.is_expired for the 5-second TimeFreeze. -/
def freezeExpired (now : ℚ) (s : GameState) : Bool :=
  match s.freezeStart with
  | some t0 => decide (5 < now - t0)
  | none => false

/-- TimeFreezeePowerUp.update: while active and unexpired, pin
elapsed_time to the captured value.  (Dead code in the source: no call
site of PowerUp.update exists; kept to state what the spec describes.) -/
def freezeUpdate (now : ℚ) (s : GameState) : GameState :=
  if s.freezeActive && !freezeExpired now s then
    { s with elapsedTime := s.frozenTime }
  else s

/-- The `any(p.active for p in self.power_ups.values())` guard of
Minesweeper.handle_click. -/
def anyPowerActive (s : GameState) : Bool :=
  s.revealActive || s.freezeActive || s.safetyActive

/-- Which of the power-up keys (K_1 / K_2 / K_3) is held during a
click; the source checks them in an if/elif chain, so at most one
fires. -/
inductive Key where
  | none
  | k1
  | k2
  | k3
deriving DecidableEq

/-- The power-up activation chain at the top of Minesweeper.handle_click
(each branch requires a positive charge count and consumes one). -/
def powerKeyStep (f : ℕ) (now : ℚ) (key : Key) (p : Coord) (s : GameState) : GameState :=
  match key with
  | .none => s
  | .k1 =>
    if 0 < s.chargesReveal then
      { revealAreaActivate f now p s with chargesReveal := s.chargesReveal - 1 }
    else s
  | .k2 =>
    if 0 < s.chargesFreeze then
      { freezeActivate now s with chargesFreeze := s.chargesFreeze - 1 }
    else s
  | .k3 =>
    if 0 < s.chargesSafety then
      { safetyActivate now s with chargesSafety := s.chargesSafety - 1 }
    else s

/-- The right-click branch of Minesweeper.handle_click: toggle the flag
on an unrevealed cell, adjust mines_left (`+= 1 if not was_flagged
else -1`, exactly as the source does), and maintain the misplaced-flags
list. -/
def flagToggle (p : Coord) (s : GameState) : GameState :=
  if !s.revealed p then
    let wasFlagged := s.flagged p
    let s1 := { s with flagged := Function.update s.flagged p (!wasFlagged)
                       minesLeft := s.minesLeft + (if !wasFlagged then 1 else -1) }
    if decide (s1.grid p ≠ -1) && !wasFlagged then
      { s1 with misplacedFlags := s1.misplacedFlags ++ [p] }
    else if decide (s1.grid p ≠ -1) && wasFlagged then
      { s1 with misplacedFlags := s1.misplacedFlags.erase p }
    else s1
  else s

/-- Minesweeper.handle_click for a click landing on the board (button
and menu hit-testing is UI, outside the core).  `L` is the list of mine
positions random.sample would return if this click performs first-click
placement. -/
def handleClick (f : ℕ) (now : ℚ) (key : Key) (rightClick : Bool) (L : List Coord)
    (p : Coord) (s : GameState) : GameState :=
  if s.gameOver || s.win then s
  else if !inBounds s.gridSize p then s
  else
    let s1 := powerKeyStep f now key p s
    if rightClick then flagToggle p s1
    else if s1.flagged p then s1
    else
      let chord :=
        if s1.revealed p && decide (0 < s1.grid p) then chordReveal f now s1 p
        else (s1, false)
      if chord.2 then checkWin chord.1
      else
        let s2 := chord.1
        let s3 :=
          if s2.firstClick then
            { s2 with grid := placeMinesGrid s2.gridSize s2.grid L
                      firstClick := false
                      startTime := some now }
          else s2
        if s3.grid p = -1 then
          if anyPowerActive s3 then s3 else { s3 with gameOver := true }
        else
          checkWin (revealCell f now s3 p)

/-- AchievementManager.check_achievements on the modelled predicates. -/
def checkAchievements (s : GameState) : GameState :=
  let a0 := s.achievements
  let a1 :=
    if s.win then
      { a0 with
        firstWin := true
        speedDemon := if s.elapsedTime < 30 then true else a0.speedDemon
        hardVictory := if s.difficulty = .hard then true else a0.hardVictory
        perfectionist := if s.misplacedFlags.isEmpty then true else a0.perfectionist }
    else a0
  let a2 := if 10 ≤ s.maxCombo then { a1 with comboMaster := true } else a1
  { s with achievements := a2 }

/-- The timer update of the draw routine: when start_time is set,
elapsed_time becomes int(time.time() - start_time). -/
def updateTimer (now : ℚ) (s : GameState) : GameState :=
  match s.startTime with
  | some t0 => { s with elapsedTime := ((⌊now - t0⌋ : ℤ) : ℚ) }
  | none => s

/-- One iteration of the Minesweeper.run main loop as it affects game
state: achievement evaluation, then the draw routine updating the
timer.  No PowerUp.update call appears anywhere in the loop. -/
def tick (now : ℚ) (s : GameState) : GameState :=
  updateTimer now (checkAchievements s)

/-- Minesweeper.reveal_cell instrumented with the list of cells it
marks revealed, in marking order.  Its first component coincides with
revealCell (proved below); the trace makes the visits-each-cell-once
property of the flood fill statable. -/
def revealCellT : ℕ → ℚ → GameState → Coord → GameState × List Coord
  | 0, _, s, _ => (s, [])
  | f + 1, now, s, p =>
    if !inBounds s.gridSize p || s.revealed p || s.flagged p then (s, [])
    else
      let s1 := comboUpdate now s
      let s2 := { s1 with revealed := Function.update s1.revealed p true }
      if s2.grid p = 0 then
        nbhd.foldl
          (fun acc d =>
            let r := revealCellT f now acc.1 (p.1 + d.1, p.2 + d.2)
            (r.1, acc.2 ++ r.2))
          (s2, [p])
      else (s2, [p])

/-- Chebyshev distance at most 1 (the cells one reveal_cell recursion
step can move between). -/
def cheb1 (a b : Coord) : Prop := |b.1 - a.1| ≤ 1 ∧ |b.2 - a.2| ≤ 1

/-- A cell the flood fill may mark: in bounds, unflagged, unrevealed. -/
def admissible (s : GameState) (q : Coord) : Prop :=
  inBounds s.gridSize q = true ∧ s.flagged q = false ∧ s.revealed q = false

/-- One expansion step of the flood fill: from a zero-valued cell to an
admissible cell at Chebyshev distance at most 1. -/
def floodStep (s : GameState) (a b : Coord) : Prop :=
  s.grid a = 0 ∧ admissible s b ∧ cheb1 a b

/-- The region a flood fill started at p is specified to mark: the
connected zero-valued component through admissible cells, together
with its admissible border. -/
def floodReach (s : GameState) (p q : Coord) : Prop :=
  admissible s p ∧ admissible s q ∧ Relation.ReflTransGen (floodStep s) p q

/-- A sequence of reveal timestamps fed through the combo tracker. -/
def comboSeq (ts : List ℚ) (s : GameState) : GameState :=
  ts.foldl (fun t now => comboUpdate now t) s

/-- The current_combo value observed after each reveal of a timestamp
sequence. -/
def comboTrace : List ℚ → GameState → List ℕ
  | [], _ => []
  | t :: rest, s => (comboUpdate t s).combo :: comboTrace rest (comboUpdate t s)

/-- Modelled from the claim wording, for comparison with the code: the
running maximum of current_combo over the session. -/
def comboRunningMax (ts : List ℚ) (s : GameState) : ℕ :=
  (comboTrace ts s).foldl max s.maxCombo

/-- The current_combo values observed at fast reveals only (gap < 1.0 s
since the previous reveal); what the code actually feeds into
max_combo. -/
def comboFastTrace : List ℚ → GameState → List ℕ
  | [], _ => []
  | t :: rest, s =>
    if t - s.lastRevealTime < 1 then
      (comboUpdate t s).combo :: comboFastTrace rest (comboUpdate t s)
    else comboFastTrace rest (comboUpdate t s)

/-- Enough fuel for any reveal cascade on the current board. -/
def stepFuel (s : GameState) : ℕ := s.gridSize.toNat * s.gridSize.toNat + 1

/-- Validity of the list of mine positions a click passes to
place_mines: when the click performs first-click placement, the list
must be a random.sample result, i.e. distinct candidate-set members of
the right cardinality. -/
def MineListOK (s : GameState) (p : Coord) (L : List Coord) : Prop :=
  s.firstClick = true →
    L.Nodup ∧ L.length = s.minesTotal ∧ ∀ m ∈ L, candidate s.gridSize p m = true

/-- The input events of one run, as they act on the modelled state:
board clicks (with the nondeterministically sampled mine list), the R
restart key, the difficulty buttons, and the per-frame tick. -/
inductive Step : GameState → GameState → Prop where
  | click (s : GameState) (now : ℚ) (key : Key) (right : Bool) (L : List Coord)
      (p : Coord) (h : MineListOK s p L) :
      Step s (handleClick (stepFuel s) now key right L p s)
  | restartKey (s : GameState) : Step s (resetGame s)
  | diffButton (s : GameState) (d : Diff) : Step s (applyDifficulty d s)
  | frame (s : GameState) (now : ℚ) : Step s (tick now s)

/-- States reachable from the freshly initialised game. -/
def Reachable (s : GameState) : Prop :=
  Relation.ReflTransGen Step initState s

/-- The state after the combo update and the marking of p (the body of
reveal_cell before the zero-value recursion). -/
def markRevealed (now : ℚ) (s : GameState) (p : Coord) : GameState :=
  { comboUpdate now s with revealed := Function.update (comboUpdate now s).revealed p true }

structure Frame (s t : GameState) : Prop where
  gridSize : t.gridSize = s.gridSize
  minesTotal : t.minesTotal = s.minesTotal
  grid : t.grid = s.grid
  flagged : t.flagged = s.flagged
  gameOver : t.gameOver = s.gameOver
  win : t.win = s.win
  firstClick : t.firstClick = s.firstClick
  mono : ∀ q, s.revealed q = true → t.revealed q = true

/-- Closure property: every cell the run (from x to y) newly revealed
with value 0 has all its admissible neighbours revealed in y. -/
def ClosedNew (x y : GameState) : Prop :=
  ∀ a, y.revealed a = true → x.revealed a = false → x.grid a = 0 →
    ∀ b, cheb1 a b → inBounds x.gridSize b = true → x.flagged b = false →
      y.revealed b = true

/-- One step of the instrumented flood-fill fold. -/
def traceStep (f : ℕ) (now : ℚ) (p : Coord) (acc : GameState × List Coord)
    (d : ℤ × ℤ) : GameState × List Coord :=
  ((revealCellT f now acc.1 (p.1 + d.1, p.2 + d.2)).1,
    acc.2 ++ (revealCellT f now acc.1 (p.1 + d.1, p.2 + d.2)).2)

/-- Overwrite the SafetyNet active flag. -/
def withSafety (b : Bool) (s : GameState) : GameState := { s with safetyActive := b }

/-- The chord attempt of handle_click (chord only on a revealed positive
cell). -/
def chordPick (f : ℕ) (now : ℚ) (s1 : GameState) (p : Coord) : GameState × Bool :=
  if s1.revealed p && decide (0 < s1.grid p) then chordReveal f now s1 p
  else (s1, false)

/-- First-click mine placement step of handle_click. -/
def placeStep (now : ℚ) (L : List Coord) (s2 : GameState) : GameState :=
  if s2.firstClick then
    { s2 with grid := placeMinesGrid s2.gridSize s2.grid L
              firstClick := false
              startTime := some now }
  else s2

/-- The trailing mine-check / reveal of handle_click. -/
def mineTail (f : ℕ) (now : ℚ) (p : Coord) (s3 : GameState) : GameState :=
  if s3.grid p = -1 then
    if anyPowerActive s3 then s3 else { s3 with gameOver := true }
  else checkWin (revealCell f now s3 p)

/-- The post-flag-check body of handle_click. -/
def afterFlag (f : ℕ) (now : ℚ) (L : List Coord) (p : Coord) (s1 : GameState) :
    GameState :=
  if (chordPick f now s1 p).2 then checkWin (chordPick f now s1 p).1
  else mineTail f now p (placeStep now L (chordPick f now s1 p).1)

/-- The neighbour-increment step of place_mines. -/
def bumpNeighbour (n : ℤ) (m : Coord) (h : Coord → ℤ) (d : ℤ × ℤ) : Coord → ℤ :=
  let q : Coord := (m.1 + d.1, m.2 + d.2)
  if inBounds n q && decide (h q ≠ -1) then Function.update h q (h q + 1) else h

instance cheb1Decidable (a b : Coord) : Decidable (cheb1 a b) := by
  unfold cheb1
  infer_instance

/-! ### Concrete boards and states used by the claim instances -/

/-- A mine sample for an easy board with first click (0, 0): a wall
along x = 5 plus the bottom-right block, leaving the two cells (6, 0)
and (7, 0) as a numbered pocket the first flood fill cannot enter. -/
def mines10 : List Coord :=
  [(5,0),(5,1),(6,1),(7,1),(5,6),(5,7),(6,6),(6,7),(7,6),(7,7)]

/-- A fresh easy game (8x8, 10 mines). -/
def easyStart : GameState := applyDifficulty .easy initState

/-- The easy game after a first click at (0, 0) with sample mines10:
the flood fill reveals the left region, 12 cells stay unrevealed. -/
def cex3b : GameState :=
  handleClick (stepFuel easyStart) 1 .none false mines10 (0, 0) easyStart

/-- cex3b after a click on the mine (7, 1) while holding K_1: the
RevealArea power-up reveals the pocket (6, 0), (7, 0) on its way, after
which exactly minesTotal cells are unrevealed, yet no check_win runs. -/
def cex3c : GameState :=
  handleClick (stepFuel cex3b) 2 .k1 false mines10 (7, 1) cex3b

/-- An easy board about to reveal the mine at (0, 0) while only the
RevealArea power-up is active (SafetyNet inactive). -/
def c1reveal : GameState :=
  { easyStart with
    grid := fun q => if q = (0, 0) then -1 else 1
    firstClick := false
    revealActive := true }

/-- An easy board set up for a chord on (1, 1) (value 1, one flagged
neighbour) whose scan hits the mine at (0, 1), with SafetyNet active. -/
def c1chord : GameState :=
  { easyStart with
    grid := fun q => if q = ((0 : ℤ), (1 : ℤ)) then -1 else 1
    revealed := fun q => decide (q = ((1 : ℤ), (1 : ℤ)))
    flagged := fun q => decide (q = ((0 : ℤ), (0 : ℤ)))
    firstClick := false
    safetyActive := true }

/-- An easy board with a matched chord target at (1, 1) (value 1, one
flagged neighbour), a mismatched one at (3, 3) (value 2, no flagged
neighbour) and the unrevealed cell (0, 0). -/
def c7state : GameState :=
  { easyStart with
    revealed := fun q => decide (q = ((1 : ℤ), (1 : ℤ))) || decide (q = ((3 : ℤ), (3 : ℤ)))
    flagged := fun q => decide (q = ((0 : ℤ), (1 : ℤ)))
    grid := fun q => if q = ((1 : ℤ), (1 : ℤ)) then 1 else if q = ((3 : ℤ), (3 : ℤ)) then 2 else 0
    firstClick := false }

/-- A game with TimeFreeze activated at wall-clock 10 (capturing
elapsed_time 3), observed at wall-clock 12, well inside the 5-second
freeze window. -/
def c8state : GameState :=
  { initState with
    freezeActive := true
    freezeStart := some 10
    frozenTime := 3
    startTime := some 0 }

/-- A game with SafetyNet active and one misplaced flag recorded, about
to be reset. -/
def c9state : GameState :=
  { initState with safetyActive := true, misplacedFlags := [((0 : ℤ), (0 : ℤ))] }

/-- A 2x2 all-zero board (4 unrevealed cells). -/
def flood2 : GameState := { easyStart with gridSize := 2 }

/-- A 4x4 all-zero board (16 unrevealed cells). -/
def flood4 : GameState := { easyStart with gridSize := 4 }


/-! ### Basic projection lemmas -/

@[simp] theorem comboUpdate_gridSize (now : ℚ) (s : GameState) :
    (comboUpdate now s).gridSize = s.gridSize := by
  unfold comboUpdate; split <;> rfl

@[simp] theorem comboUpdate_minesTotal (now : ℚ) (s : GameState) :
    (comboUpdate now s).minesTotal = s.minesTotal := by
  unfold comboUpdate; split <;> rfl

@[simp] theorem comboUpdate_grid (now : ℚ) (s : GameState) :
    (comboUpdate now s).grid = s.grid := by
  unfold comboUpdate; split <;> rfl

@[simp] theorem comboUpdate_revealed (now : ℚ) (s : GameState) :
    (comboUpdate now s).revealed = s.revealed := by
  unfold comboUpdate; split <;> rfl

@[simp] theorem comboUpdate_flagged (now : ℚ) (s : GameState) :
    (comboUpdate now s).flagged = s.flagged := by
  unfold comboUpdate; split <;> rfl

@[simp] theorem comboUpdate_gameOver (now : ℚ) (s : GameState) :
    (comboUpdate now s).gameOver = s.gameOver := by
  unfold comboUpdate; split <;> rfl

@[simp] theorem comboUpdate_win (now : ℚ) (s : GameState) :
    (comboUpdate now s).win = s.win := by
  unfold comboUpdate; split <;> rfl

@[simp] theorem comboUpdate_firstClick (now : ℚ) (s : GameState) :
    (comboUpdate now s).firstClick = s.firstClick := by
  unfold comboUpdate; split <;> rfl

@[simp] theorem comboUpdate_safetyActive (now : ℚ) (s : GameState) :
    (comboUpdate now s).safetyActive = s.safetyActive := by
  unfold comboUpdate; split <;> rfl

theorem revealCell_zero (now : ℚ) (s : GameState) (p : Coord) :
    revealCell 0 now s p = s := rfl


theorem revealCell_succ (f : ℕ) (now : ℚ) (s : GameState) (p : Coord) :
    revealCell (f + 1) now s p =
      if !inBounds s.gridSize p || s.revealed p || s.flagged p then s
      else if (markRevealed now s p).grid p = 0 then
        nbhd.foldl (fun t d => revealCell f now t (p.1 + d.1, p.2 + d.2))
          (markRevealed now s p)
      else markRevealed now s p := rfl

@[simp] theorem markRevealed_grid (now : ℚ) (s : GameState) (p : Coord) :
    (markRevealed now s p).grid = s.grid := by
  simp [markRevealed]

@[simp] theorem markRevealed_gridSize (now : ℚ) (s : GameState) (p : Coord) :
    (markRevealed now s p).gridSize = s.gridSize := by
  simp [markRevealed]

@[simp] theorem markRevealed_flagged (now : ℚ) (s : GameState) (p : Coord) :
    (markRevealed now s p).flagged = s.flagged := by
  simp [markRevealed]

@[simp] theorem markRevealed_revealed (now : ℚ) (s : GameState) (p : Coord) :
    (markRevealed now s p).revealed = Function.update s.revealed p true := by
  simp [markRevealed]

/-! ### Frame: the fields a reveal cascade never changes, plus
monotonicity of the revealed set -/


theorem Frame.rfl (s : GameState) : Frame s s :=
  ⟨Eq.refl _, Eq.refl _, Eq.refl _, Eq.refl _, Eq.refl _, Eq.refl _, Eq.refl _,
    fun _ h => h⟩

theorem Frame.trans {s t u : GameState} (h1 : Frame s t) (h2 : Frame t u) : Frame s u :=
  ⟨h2.gridSize.trans h1.gridSize, h2.minesTotal.trans h1.minesTotal,
    h2.grid.trans h1.grid, h2.flagged.trans h1.flagged,
    h2.gameOver.trans h1.gameOver, h2.win.trans h1.win,
    h2.firstClick.trans h1.firstClick,
    fun q hq => h2.mono q (h1.mono q hq)⟩

theorem foldl_Frame {α : Type} {g : GameState → α → GameState}
    (hg : ∀ t d, Frame t (g t d)) :
    ∀ (ds : List α) (t : GameState), Frame t (ds.foldl g t) := by
  intro ds
  induction ds with
  | nil => intro t; exact Frame.rfl t
  | cons d ds ih => intro t; exact Frame.trans (hg t d) (ih (g t d))

theorem markRevealed_Frame (now : ℚ) (s : GameState) (p : Coord) :
    Frame s
      { comboUpdate now s with
        revealed := Function.update (comboUpdate now s).revealed p true } := by
  refine ⟨by simp, by simp, by simp, by simp, by simp, by simp, by simp, ?_⟩
  intro q hq
  simp only [comboUpdate_revealed, Function.update_apply]
  split <;> simp_all

theorem inBounds_iff {n : ℤ} {q : Coord} :
    inBounds n q = true ↔ 0 ≤ q.1 ∧ q.1 < n ∧ 0 ≤ q.2 ∧ q.2 < n := by
  simp [inBounds, and_assoc]

theorem mem_cellList {n : ℤ} {q : Coord} : q ∈ cellList n ↔ inBounds n q = true := by
  constructor
  · intro h
    simp only [cellList, List.mem_flatMap, List.mem_map, List.mem_range] at h
    obtain ⟨x, hx, y, hy, h⟩ := h
    subst h
    rw [inBounds_iff]
    show 0 ≤ (x : ℤ) ∧ (x : ℤ) < n ∧ 0 ≤ (y : ℤ) ∧ (y : ℤ) < n
    omega
  · intro h
    rw [inBounds_iff] at h
    simp only [cellList, List.mem_flatMap, List.mem_map, List.mem_range]
    refine ⟨q.1.toNat, by omega, q.2.toNat, by omega, ?_⟩
    obtain ⟨a, b⟩ := q
    dsimp only at h ⊢
    rw [Prod.mk.injEq]
    constructor <;> omega

theorem cellList_nodup (n : ℤ) : (cellList n).Nodup := by
  unfold cellList
  rw [List.nodup_flatMap]
  constructor
  · intro x _
    refine List.Nodup.map ?_ (List.nodup_range _)
    intro u v huv
    simpa using congrArg Prod.snd huv
  · refine (List.nodup_range _).imp ?_
    intro x y hxy c hcx hcy
    simp only [List.mem_map, List.mem_range] at hcx hcy
    obtain ⟨u, _, hu⟩ := hcx
    obtain ⟨v, _, hv⟩ := hcy
    apply hxy
    have h1 : ((x : ℤ), (u : ℤ)).1 = ((y : ℤ), (v : ℤ)).1 := by rw [hu, hv]
    simpa using h1

theorem countP_mono_pointwise {α : Type} {p q : α → Bool} :
    ∀ {l : List α}, (∀ a ∈ l, p a = true → q a = true) → l.countP p ≤ l.countP q := by
  intro l
  induction l with
  | nil => simp
  | cons a l ih =>
    intro h
    have hrest := ih fun b hb => h b (List.mem_cons_of_mem _ hb)
    have ha := h a (List.mem_cons_self a l)
    rw [List.countP_cons, List.countP_cons]
    cases hpa : p a <;> cases hqa : q a <;> simp_all <;> omega

theorem countP_lt_pointwise {α : Type} {p q : α → Bool} {l : List α} {a : α}
    (hmono : ∀ b ∈ l, p b = true → q b = true) (ha : a ∈ l) (hqa : q a = true)
    (hpa : p a = false) : l.countP p < l.countP q := by
  induction l with
  | nil => cases ha
  | cons b l ih =>
    have hmono2 : ∀ c ∈ l, p c = true → q c = true :=
      fun c hc => hmono c (List.mem_cons_of_mem _ hc)
    rw [List.countP_cons, List.countP_cons]
    rcases List.mem_cons.mp ha with rfl | ha2
    · have hrest := countP_mono_pointwise hmono2
      simp [hpa, hqa]
      omega
    · have := ih hmono2 ha2
      have hb := hmono b (List.mem_cons_self b l)
      cases hpb : p b <;> cases hqb : q b <;> simp_all <;> omega

theorem unrevealedCount_le_of_Frame {s t : GameState} (h : Frame s t) :
    unrevealedCount t ≤ unrevealedCount s := by
  unfold unrevealedCount
  rw [h.gridSize, ← List.countP_eq_length_filter, ← List.countP_eq_length_filter]
  apply countP_mono_pointwise
  intro a _ hp
  simp only [Bool.not_eq_true'] at hp ⊢
  cases hsa : s.revealed a
  · rfl
  · exact absurd (h.mono a hsa) (by simp [hp])

theorem unrevealedCount_lt {s t : GameState} (h : Frame s t) {a : Coord}
    (hsa : s.revealed a = false) (hta : t.revealed a = true)
    (hmem : inBounds s.gridSize a = true) :
    unrevealedCount t < unrevealedCount s := by
  unfold unrevealedCount
  rw [h.gridSize, ← List.countP_eq_length_filter, ← List.countP_eq_length_filter]
  apply countP_lt_pointwise (a := a)
  · intro b _ hp
    simp only [Bool.not_eq_true'] at hp ⊢
    cases hsb : s.revealed b
    · rfl
    · exact absurd (h.mono b hsb) (by simp [hp])
  · exact mem_cellList.mpr hmem
  · simp [hsa]
  · simp [hta]

theorem one_le_unrevealedCount {s : GameState} {p : Coord}
    (hb : inBounds s.gridSize p = true) (hr : s.revealed p = false) :
    1 ≤ unrevealedCount s := by
  unfold unrevealedCount
  rw [← List.countP_eq_length_filter]
  rw [Nat.one_le_iff_ne_zero]
  intro h0
  rw [List.countP_eq_zero] at h0
  exact h0 p (mem_cellList.mpr hb) (by simp [hr])

theorem cheb1_of_mem_nbhd {p : Coord} {d : ℤ × ℤ} (h : d ∈ nbhd) :
    cheb1 p (p.1 + d.1, p.2 + d.2) := by
  fin_cases h <;> constructor <;> rw [abs_le] <;> constructor <;> simp

theorem mem_nbhd_of_cheb1 {a b : Coord} (h : cheb1 a b) :
    ∃ d ∈ nbhd, b = (a.1 + d.1, a.2 + d.2) := by
  obtain ⟨h1, h2⟩ := h
  rw [abs_le] at h1 h2
  have hx : b.1 - a.1 = -1 ∨ b.1 - a.1 = 0 ∨ b.1 - a.1 = 1 := by omega
  have hy : b.2 - a.2 = -1 ∨ b.2 - a.2 = 0 ∨ b.2 - a.2 = 1 := by omega
  refine ⟨(b.1 - a.1, b.2 - a.2), ?_, ?_⟩
  · simp only [nbhd, offs, List.mem_flatMap, List.mem_map]
    refine ⟨b.1 - a.1, ?_, b.2 - a.2, ?_, rfl⟩
    · rcases hx with h | h | h <;> simp [h]
    · rcases hy with h | h | h <;> simp [h]
  · obtain ⟨x, y⟩ := b
    simp only [Prod.mk.injEq]
    omega

theorem revealCell_Frame (f : ℕ) (now : ℚ) :
    ∀ (s : GameState) (p : Coord), Frame s (revealCell f now s p) := by
  induction f with
  | zero => intro s p; exact Frame.rfl s
  | succ f ih =>
    intro s p
    rw [revealCell_succ]
    split
    · exact Frame.rfl s
    · show Frame s (if _ then _ else _)
      split
      · exact Frame.trans (markRevealed_Frame now s p)
          (foldl_Frame (fun t d => ih t (p.1 + d.1, p.2 + d.2)) nbhd _)
      · exact markRevealed_Frame now s p

theorem admissible_anti {s t : GameState} (hf : Frame s t) {q : Coord}
    (h : admissible t q) : admissible s q := by
  obtain ⟨h1, h2, h3⟩ := h
  refine ⟨by rwa [hf.gridSize] at h1, by rwa [hf.flagged] at h2, ?_⟩
  cases hsr : s.revealed q
  · rfl
  · exact absurd (hf.mono q hsr) (by simp [h3])

theorem floodStep_anti {s t : GameState} (hf : Frame s t) {a b : Coord}
    (h : floodStep t a b) : floodStep s a b :=
  ⟨hf.grid ▸ h.1, admissible_anti hf h.2.1, h.2.2⟩

theorem floodReach_anti {s t : GameState} (hf : Frame s t) {p q : Coord}
    (h : floodReach t p q) : floodReach s p q :=
  ⟨admissible_anti hf h.1, admissible_anti hf h.2.1,
    Relation.ReflTransGen.mono (fun _ _ hs => floodStep_anti hf hs) h.2.2⟩

theorem not_guard_admissible {s : GameState} {p : Coord}
    (h : ¬(!inBounds s.gridSize p || s.revealed p || s.flagged p) = true) :
    admissible s p := by
  simp only [Bool.or_eq_true, Bool.not_eq_true', not_or, Bool.not_eq_true,
    Bool.not_eq_false] at h
  exact ⟨h.1.1, h.2, h.1.2⟩

theorem revealCell_self {f : ℕ} {now : ℚ} {s : GameState} {p : Coord}
    (h : admissible s p) (hf : 0 < f) :
    (revealCell f now s p).revealed p = true := by
  obtain ⟨hb, hfl, hr⟩ := h
  cases f with
  | zero => omega
  | succ f =>
    rw [revealCell_succ]
    rw [if_neg (by simp [hb, hfl, hr])]
    have hp2 : ({ comboUpdate now s with
        revealed := Function.update (comboUpdate now s).revealed p true } :
          GameState).revealed p = true := by
      simp [Function.update_apply]
    split
    · exact (foldl_Frame (fun t d => revealCell_Frame f now t _) nbhd _).mono p hp2
    · exact hp2

theorem revealCell_sound {now : ℚ} :
    ∀ (f : ℕ) (s : GameState) (p q : Coord),
      (revealCell f now s p).revealed q = true →
      s.revealed q = true ∨ floodReach s p q := by
  intro f
  induction f with
  | zero => intro s p q h; exact Or.inl h
  | succ f ih =>
    intro s p q h
    rw [revealCell_succ] at h
    by_cases hguard : (!inBounds s.gridSize p || s.revealed p || s.flagged p) = true
    · rw [if_pos hguard] at h; exact Or.inl h
    · rw [if_neg hguard] at h
      have hadm : admissible s p := not_guard_admissible hguard
      have hbase : ∀ r, (markRevealed now s p).revealed r = true →
          s.revealed r = true ∨ floodReach s p r := by
        intro r hr
        rw [markRevealed_revealed, Function.update_apply] at hr
        split at hr
        · right
          subst r  -- hmm the split condition is r = p
          exact ⟨hadm, hadm, Relation.ReflTransGen.refl⟩
        · exact Or.inl hr
      by_cases hg : (markRevealed now s p).grid p = 0
      · rw [if_pos hg] at h
        have hg0 : s.grid p = 0 := by rwa [markRevealed_grid] at hg
        have hfold : ∀ (ds : List (ℤ × ℤ)), (∀ d ∈ ds, d ∈ nbhd) → ∀ t, Frame s t →
            (∀ r, t.revealed r = true → s.revealed r = true ∨ floodReach s p r) →
            ∀ r, (ds.foldl (fun t d => revealCell f now t (p.1 + d.1, p.2 + d.2))
                t).revealed r = true →
              s.revealed r = true ∨ floodReach s p r := by
          intro ds
          induction ds with
          | nil => intro _ t _ hcov r hr; exact hcov r hr
          | cons d ds ihds =>
            intro hsub t hft hcov r hr
            rw [List.foldl_cons] at hr
            refine ihds (fun e he => hsub e (List.mem_cons_of_mem _ he))
              (revealCell f now t (p.1 + d.1, p.2 + d.2))
              (Frame.trans hft (revealCell_Frame f now t _)) ?_ r hr
            intro r2 hr2
            rcases ih t _ r2 hr2 with h1 | h2
            · exact hcov r2 h1
            · right
              have h3 : floodReach s (p.1 + d.1, p.2 + d.2) r2 := floodReach_anti hft h2
              exact ⟨hadm, h3.2.1,
                Relation.ReflTransGen.head
                  ⟨hg0, h3.1, cheb1_of_mem_nbhd (hsub d (List.mem_cons_self d ds))⟩
                  h3.2.2⟩
        exact hfold nbhd (fun d hd => hd) (markRevealed now s p)
          (markRevealed_Frame now s p) hbase q h
      · rw [if_neg hg] at h
        exact hbase q h


theorem closedNew_rfl (x : GameState) : ClosedNew x x := by
  intro a h1 h2
  rw [h1] at h2
  cases h2

theorem closedNew_comp {t u v : GameState} (htu : Frame t u) (huv : Frame u v)
    (h1 : ClosedNew t u) (h2 : ClosedNew u v) : ClosedNew t v := by
  intro a hva hta hg b hcheb hb hfl
  cases hua : u.revealed a
  · exact h2 a hva hua (by rw [htu.grid]; exact hg) b hcheb
      (by rw [htu.gridSize]; exact hb) (by rw [htu.flagged]; exact hfl)
  · exact huv.mono b (h1 a hua hta hg b hcheb hb hfl)

theorem foldReveal_closedNew {now : ℚ} {f : ℕ} {p : Coord}
    (ih : ∀ (t : GameState) (b : Coord), unrevealedCount t < f →
      ClosedNew t (revealCell f now t b)) :
    ∀ (ds : List (ℤ × ℤ)) (t : GameState), unrevealedCount t < f →
      ClosedNew t (ds.foldl (fun t d => revealCell f now t (p.1 + d.1, p.2 + d.2)) t) := by
  intro ds
  induction ds with
  | nil => intro t _; exact closedNew_rfl t
  | cons d ds ihds =>
    intro t hcount
    rw [List.foldl_cons]
    have hfr := revealCell_Frame f now t (p.1 + d.1, p.2 + d.2)
    have hle := unrevealedCount_le_of_Frame hfr
    exact closedNew_comp hfr
      (foldl_Frame (fun u e => revealCell_Frame f now u _) ds _)
      (ih t _ hcount) (ihds _ (by omega))

theorem foldReveal_reveals {now : ℚ} {f : ℕ} {p : Coord} (hf : 0 < f) :
    ∀ (ds : List (ℤ × ℤ)) (t : GameState) (d : ℤ × ℤ), d ∈ ds →
      inBounds t.gridSize (p.1 + d.1, p.2 + d.2) = true →
      t.flagged (p.1 + d.1, p.2 + d.2) = false →
      (ds.foldl (fun t d => revealCell f now t (p.1 + d.1, p.2 + d.2)) t).revealed
        (p.1 + d.1, p.2 + d.2) = true := by
  intro ds
  induction ds with
  | nil => intro t d hd; cases hd
  | cons e ds ihds =>
    intro t d hd hb hfl
    rw [List.foldl_cons]
    rcases List.mem_cons.mp hd with rfl | hd2
    · have hu : (revealCell f now t (p.1 + d.1, p.2 + d.2)).revealed
          (p.1 + d.1, p.2 + d.2) = true := by
        cases htr : t.revealed (p.1 + d.1, p.2 + d.2)
        · exact revealCell_self ⟨hb, hfl, htr⟩ hf
        · exact (revealCell_Frame f now t _).mono _ htr
      exact (foldl_Frame (fun u e => revealCell_Frame f now u _) ds _).mono _ hu
    · have hfr := revealCell_Frame f now t (p.1 + e.1, p.2 + e.2)
      exact ihds _ d hd2 (by rw [hfr.gridSize]; exact hb)
        (by rw [hfr.flagged]; exact hfl)

theorem revealCell_closedNew {now : ℚ} :
    ∀ (f : ℕ) (s : GameState) (p : Coord), unrevealedCount s < f →
      ClosedNew s (revealCell f now s p) := by
  intro f
  induction f with
  | zero => intro s p h; omega
  | succ f ih =>
    intro s p hcount
    rw [revealCell_succ]
    by_cases hguard : (!inBounds s.gridSize p || s.revealed p || s.flagged p) = true
    · rw [if_pos hguard]; exact closedNew_rfl s
    · rw [if_neg hguard]
      have hadm : admissible s p := not_guard_admissible hguard
      have hrevp : (markRevealed now s p).revealed p = true := by
        simp [markRevealed_revealed, Function.update_apply]
      have hm := markRevealed_Frame now s p
      have hcount2 : unrevealedCount (markRevealed now s p) < unrevealedCount s :=
        unrevealedCount_lt hm hadm.2.2 hrevp hadm.1
      have hone : 1 ≤ unrevealedCount s := one_le_unrevealedCount hadm.1 hadm.2.2
      by_cases hg : (markRevealed now s p).grid p = 0
      · rw [if_pos hg]
        have hg0 : s.grid p = 0 := by rwa [markRevealed_grid] at hg
        intro a h1 h2 h3 b hcheb hb hfl
        cases hma : (markRevealed now s p).revealed a
        · -- a was newly revealed inside the fold
          exact foldReveal_closedNew (fun t b hc => ih t b hc) nbhd
            (markRevealed now s p) (by omega) a h1 hma
            (by rw [markRevealed_grid]; exact h3) b hcheb
            (by rw [markRevealed_gridSize]; exact hb)
            (by rw [markRevealed_flagged]; exact hfl)
        · -- a is the clicked cell p itself
          have hap : a = p := by
            rw [markRevealed_revealed, Function.update_apply] at hma
            by_cases he : a = p
            · exact he
            · rw [if_neg he] at hma; rw [hma] at h2; cases h2
          rw [hap] at hcheb
          obtain ⟨d, hd, hb2⟩ := mem_nbhd_of_cheb1 hcheb
          rw [hb2] at hb hfl ⊢
          exact foldReveal_reveals (by omega) nbhd (markRevealed now s p) d hd
            (by rw [markRevealed_gridSize]; exact hb)
            (by rw [markRevealed_flagged]; exact hfl)
      · rw [if_neg hg]
        intro a h1 h2 h3 b hcheb hb hfl
        rw [markRevealed_revealed, Function.update_apply] at h1
        by_cases he : a = p
        · rw [markRevealed_grid] at hg
          rw [he] at h3
          exact absurd h3 hg
        · rw [if_neg he] at h1
          rw [h1] at h2
          cases h2

theorem reach_target_adm {s : GameState} {p c : Coord}
    (h : Relation.ReflTransGen (floodStep s) p c) : c = p ∨ admissible s c := by
  rcases Relation.ReflTransGen.cases_tail h with h1 | ⟨c2, _, hstep⟩
  · exact Or.inl h1
  · exact Or.inr hstep.2.1

theorem revealCell_complete {now : ℚ} (f : ℕ) (s : GameState) (p q : Coord)
    (hcount : unrevealedCount s < f) (hreach : floodReach s p q) :
    (revealCell f now s p).revealed q = true := by
  obtain ⟨hadmp, hadmq, hpath⟩ := hreach
  have hone : 1 ≤ unrevealedCount s := one_le_unrevealedCount hadmp.1 hadmp.2.2
  have hf1 : 0 < f := by omega
  have main : ∀ c, Relation.ReflTransGen (floodStep s) p c → admissible s c →
      (revealCell f now s p).revealed c = true := by
    intro c hpath2
    induction hpath2 with
    | refl => intro _; exact revealCell_self hadmp hf1
    | @tail b c hpb hstep ihp =>
      intro hadmc
      have hb : (revealCell f now s p).revealed b = true := by
        rcases reach_target_adm hpb with rfl | hadmb
        · exact revealCell_self hadmp hf1
        · exact ihp hadmb
      have hsb : s.revealed b = false := by
        rcases reach_target_adm hpb with rfl | hadmb
        · exact hadmp.2.2
        · exact hadmb.2.2
      exact revealCell_closedNew f s p hcount b hb hsb hstep.1 c hstep.2.2
        hadmc.1 hadmc.2.1
  exact main q hpath hadmq

theorem revealCell_fuel_succ {now : ℚ} :
    ∀ (f : ℕ) (s : GameState) (p : Coord), unrevealedCount s < f →
      revealCell (f + 1) now s p = revealCell f now s p := by
  intro f
  induction f with
  | zero => intro s p h; omega
  | succ f ih =>
    intro s p hcount
    rw [revealCell_succ (f + 1), revealCell_succ f]
    by_cases hguard : (!inBounds s.gridSize p || s.revealed p || s.flagged p) = true
    · rw [if_pos hguard, if_pos hguard]
    · rw [if_neg hguard, if_neg hguard]
      have hadm : admissible s p := not_guard_admissible hguard
      by_cases hg : (markRevealed now s p).grid p = 0
      · rw [if_pos hg, if_pos hg]
        have hrevp : (markRevealed now s p).revealed p = true := by
          simp [markRevealed_revealed, Function.update_apply]
        have hcount2 : unrevealedCount (markRevealed now s p) < unrevealedCount s :=
          unrevealedCount_lt (markRevealed_Frame now s p) hadm.2.2 hrevp hadm.1
        have hfold : ∀ (ds : List (ℤ × ℤ)) (t : GameState), unrevealedCount t < f →
            ds.foldl (fun t d => revealCell (f + 1) now t (p.1 + d.1, p.2 + d.2)) t =
            ds.foldl (fun t d => revealCell f now t (p.1 + d.1, p.2 + d.2)) t := by
          intro ds
          induction ds with
          | nil => intro t _; rfl
          | cons d ds ihds =>
            intro t hct
            rw [List.foldl_cons, List.foldl_cons, ih t _ hct]
            have hle := unrevealedCount_le_of_Frame
              (revealCell_Frame f now t (p.1 + d.1, p.2 + d.2))
            exact ihds _ (by omega)
        exact hfold nbhd (markRevealed now s p) (by omega)
      · rw [if_neg hg, if_neg hg]

theorem revealCell_fuel_ge {now : ℚ} {f g : ℕ} {s : GameState} {p : Coord}
    (hf : unrevealedCount s < f) (hg : f ≤ g) :
    revealCell g now s p = revealCell f now s p := by
  induction g, hg using Nat.le_induction with
  | base => rfl
  | succ g hg ih => rw [revealCell_fuel_succ g s p (by omega), ih]

/-! ### The instrumented reveal and its trace -/


theorem revealCellT_zero (now : ℚ) (s : GameState) (p : Coord) :
    revealCellT 0 now s p = (s, []) := rfl

theorem revealCellT_succ (f : ℕ) (now : ℚ) (s : GameState) (p : Coord) :
    revealCellT (f + 1) now s p =
      if !inBounds s.gridSize p || s.revealed p || s.flagged p then (s, [])
      else if (markRevealed now s p).grid p = 0 then
        nbhd.foldl (traceStep f now p) (markRevealed now s p, [p])
      else (markRevealed now s p, [p]) := rfl

theorem revealCellT_fst {now : ℚ} :
    ∀ (f : ℕ) (s : GameState) (p : Coord),
      (revealCellT f now s p).1 = revealCell f now s p := by
  intro f
  induction f with
  | zero => intro s p; rfl
  | succ f ih =>
    intro s p
    rw [revealCellT_succ, revealCell_succ]
    by_cases hguard : (!inBounds s.gridSize p || s.revealed p || s.flagged p) = true
    · rw [if_pos hguard, if_pos hguard]
    · rw [if_neg hguard, if_neg hguard]
      by_cases hg : (markRevealed now s p).grid p = 0
      · rw [if_pos hg, if_pos hg]
        have hfold : ∀ (ds : List (ℤ × ℤ)) (t : GameState) (l : List Coord),
            (ds.foldl (traceStep f now p) (t, l)).1 =
            ds.foldl (fun t d => revealCell f now t (p.1 + d.1, p.2 + d.2)) t := by
          intro ds
          induction ds with
          | nil => intro t l; rfl
          | cons d ds ihds =>
            intro t l
            rw [List.foldl_cons, List.foldl_cons]
            show (ds.foldl (traceStep f now p)
              ((revealCellT f now t (p.1 + d.1, p.2 + d.2)).1, _)).1 = _
            rw [ihds, ih]
        exact hfold nbhd (markRevealed now s p) [p]
      · rw [if_neg hg, if_neg hg]

theorem revealCellT_spec {now : ℚ} :
    ∀ (f : ℕ) (s : GameState) (p : Coord),
      (∀ q, (revealCellT f now s p).1.revealed q = true ↔
        (s.revealed q = true ∨ q ∈ (revealCellT f now s p).2)) ∧
      (revealCellT f now s p).2.Nodup ∧
      (∀ q ∈ (revealCellT f now s p).2, s.revealed q = false) := by
  intro f
  induction f with
  | zero =>
    intro s p
    refine ⟨fun q => by simp [revealCellT_zero], by simp [revealCellT_zero],
      by simp [revealCellT_zero]⟩
  | succ f ih =>
    intro s p
    rw [revealCellT_succ]
    by_cases hguard : (!inBounds s.gridSize p || s.revealed p || s.flagged p) = true
    · rw [if_pos hguard]
      exact ⟨fun q => by simp, by simp, by simp⟩
    · rw [if_neg hguard]
      have hadm : admissible s p := not_guard_admissible hguard
      have hbase1 : ∀ q, (markRevealed now s p).revealed q = true ↔
          (s.revealed q = true ∨ q ∈ [p]) := by
        intro q
        rw [markRevealed_revealed, Function.update_apply]
        by_cases he : q = p
        · simp [he]
        · simp [he]
      have hbase3 : ∀ q ∈ [p], s.revealed q = false := by
        intro q hq
        rw [List.mem_singleton] at hq
        rw [hq]
        exact hadm.2.2
      by_cases hg : (markRevealed now s p).grid p = 0
      · rw [if_pos hg]
        have hfold : ∀ (ds : List (ℤ × ℤ)) (t : GameState) (acc : List Coord),
            (∀ q, t.revealed q = true ↔ (s.revealed q = true ∨ q ∈ acc)) →
            acc.Nodup → (∀ q ∈ acc, s.revealed q = false) →
            (∀ q, (ds.foldl (traceStep f now p) (t, acc)).1.revealed q = true ↔
              (s.revealed q = true ∨ q ∈ (ds.foldl (traceStep f now p) (t, acc)).2)) ∧
            (ds.foldl (traceStep f now p) (t, acc)).2.Nodup ∧
            (∀ q ∈ (ds.foldl (traceStep f now p) (t, acc)).2, s.revealed q = false) := by
          intro ds
          induction ds with
          | nil => intro t acc h1 h2 h3; exact ⟨h1, h2, h3⟩
          | cons d ds ihds =>
            intro t acc h1 h2 h3
            rw [List.foldl_cons]
            obtain ⟨u1, u2, u3⟩ := ih t (p.1 + d.1, p.2 + d.2)
            show (∀ q, (ds.foldl (traceStep f now p)
                ((revealCellT f now t (p.1 + d.1, p.2 + d.2)).1,
                  acc ++ (revealCellT f now t (p.1 + d.1, p.2 + d.2)).2)).1.revealed q =
                true ↔ _) ∧ _
            refine ihds _ _ ?_ ?_ ?_
            · intro q
              rw [u1 q, h1 q, List.mem_append, or_assoc]
            · refine h2.append u2 ?_
              intro q hqa hqu
              have := (h1 q).mpr (Or.inr hqa)
              rw [u3 q hqu] at this
              cases this
            · intro q hq
              rcases List.mem_append.mp hq with hqa | hqu
              · exact h3 q hqa
              · cases hsq : s.revealed q
                · rfl
                · have ht := (h1 q).mpr (Or.inl hsq)
                  rw [u3 q hqu] at ht
                  cases ht
        exact hfold nbhd (markRevealed now s p) [p] hbase1 (by simp) hbase3
      · rw [if_neg hg]
        exact ⟨hbase1, by simp, hbase3⟩

theorem comboUpdate_combo_fast {now : ℚ} {s : GameState}
    (h : now - s.lastRevealTime < 1) : (comboUpdate now s).combo = s.combo + 1 := by
  unfold comboUpdate; rw [if_pos h]

theorem comboUpdate_max_fast {now : ℚ} {s : GameState}
    (h : now - s.lastRevealTime < 1) :
    (comboUpdate now s).maxCombo = max s.maxCombo (s.combo + 1) := by
  unfold comboUpdate; rw [if_pos h]

theorem comboUpdate_combo_slow {now : ℚ} {s : GameState}
    (h : ¬now - s.lastRevealTime < 1) : (comboUpdate now s).combo = 1 := by
  unfold comboUpdate; rw [if_neg h]

theorem comboUpdate_max_slow {now : ℚ} {s : GameState}
    (h : ¬now - s.lastRevealTime < 1) :
    (comboUpdate now s).maxCombo = s.maxCombo := by
  unfold comboUpdate; rw [if_neg h]

@[simp] theorem comboUpdate_last (now : ℚ) (s : GameState) :
    (comboUpdate now s).lastRevealTime = now := by
  unfold comboUpdate; split <;> rfl

@[simp] theorem markRevealed_combo (now : ℚ) (s : GameState) (p : Coord) :
    (markRevealed now s p).combo = (comboUpdate now s).combo := rfl

@[simp] theorem markRevealed_maxCombo (now : ℚ) (s : GameState) (p : Coord) :
    (markRevealed now s p).maxCombo = (comboUpdate now s).maxCombo := rfl

@[simp] theorem markRevealed_last (now : ℚ) (s : GameState) (p : Coord) :
    (markRevealed now s p).lastRevealTime = now := by
  show (comboUpdate now s).lastRevealTime = now
  simp

/-- Combo arithmetic of one reveal call performed within the one-second
window: every newly marked cell increments the combo by one, max_combo
tracks the final value, and the reveal timestamp is updated. -/
theorem revealCellT_combo {now : ℚ} :
    ∀ (f : ℕ) (s : GameState) (p : Coord), now - s.lastRevealTime < 1 →
      ((revealCellT f now s p).2 = [] → (revealCellT f now s p).1 = s) ∧
      (revealCellT f now s p).1.combo = s.combo + (revealCellT f now s p).2.length ∧
      ((revealCellT f now s p).2 ≠ [] →
        (revealCellT f now s p).1.maxCombo =
          max s.maxCombo (s.combo + (revealCellT f now s p).2.length) ∧
        (revealCellT f now s p).1.lastRevealTime = now) := by
  intro f
  induction f with
  | zero =>
    intro s p _
    exact ⟨fun _ => rfl, by simp [revealCellT_zero], fun h => absurd rfl h⟩
  | succ f ih =>
    intro s p hfast
    rw [revealCellT_succ]
    by_cases hguard : (!inBounds s.gridSize p || s.revealed p || s.flagged p) = true
    · rw [if_pos hguard]
      exact ⟨fun _ => rfl, by simp, fun h => absurd rfl h⟩
    · rw [if_neg hguard]
      have hmark : (markRevealed now s p).combo = s.combo + 1 :=
        by rw [markRevealed_combo, comboUpdate_combo_fast hfast]
      have hmarkmax : (markRevealed now s p).maxCombo = max s.maxCombo (s.combo + 1) :=
        by rw [markRevealed_maxCombo, comboUpdate_max_fast hfast]
      by_cases hg : (markRevealed now s p).grid p = 0
      · rw [if_pos hg]
        have hfold : ∀ (ds : List (ℤ × ℤ)) (t : GameState) (acc : List Coord),
            t.lastRevealTime = now → t.combo = s.combo + acc.length →
            t.maxCombo = max s.maxCombo (s.combo + acc.length) → acc ≠ [] →
            (ds.foldl (traceStep f now p) (t, acc)).1.combo =
              s.combo + (ds.foldl (traceStep f now p) (t, acc)).2.length ∧
            (ds.foldl (traceStep f now p) (t, acc)).1.maxCombo =
              max s.maxCombo (s.combo + (ds.foldl (traceStep f now p) (t, acc)).2.length) ∧
            (ds.foldl (traceStep f now p) (t, acc)).1.lastRevealTime = now ∧
            (ds.foldl (traceStep f now p) (t, acc)).2 ≠ [] := by
          intro ds
          induction ds with
          | nil => intro t acc h1 h2 h3 hne; exact ⟨h2, h3, h1, hne⟩
          | cons d ds ihds =>
            intro t acc h1 h2 h3 hne
            rw [List.foldl_cons]
            have hfast2 : now - t.lastRevealTime < 1 := by
              rw [h1, sub_self]
              norm_num
            obtain ⟨u1, u2, u3⟩ := ih t (p.1 + d.1, p.2 + d.2) hfast2
            simp only [traceStep]
            by_cases hu : (revealCellT f now t (p.1 + d.1, p.2 + d.2)).2 = []
            · rw [hu, List.append_nil, u1 hu]
              exact ihds t acc h1 h2 h3 hne
            · obtain ⟨hmax, hlast⟩ := u3 hu
              have hc : (revealCellT f now t (p.1 + d.1, p.2 + d.2)).1.combo =
                  s.combo +
                    (acc ++ (revealCellT f now t (p.1 + d.1, p.2 + d.2)).2).length := by
                rw [u2, h2, List.length_append]
                omega
              have hm : (revealCellT f now t (p.1 + d.1, p.2 + d.2)).1.maxCombo =
                  max s.maxCombo (s.combo +
                    (acc ++ (revealCellT f now t (p.1 + d.1, p.2 + d.2)).2).length) := by
                rw [hmax, h2, h3, List.length_append]
                omega
              have hne2 : acc ++ (revealCellT f now t (p.1 + d.1, p.2 + d.2)).2 ≠ [] := by
                simp [hne]
              exact ihds _ _ hlast hc hm hne2
        have hres := hfold nbhd (markRevealed now s p) [p] (markRevealed_last now s p)
          (by rw [hmark]; rfl) (by rw [hmarkmax]; rfl) (by simp)
        exact ⟨fun h => absurd h hres.2.2.2, hres.1, fun _ => ⟨hres.2.1, hres.2.2.1⟩⟩
      · rw [if_neg hg]
        refine ⟨?_, ?_, ?_⟩
        · intro h
          exact absurd h (by simp)
        · simpa using hmark
        · intro _
          constructor
          · simpa using hmarkmax
          · simpa using markRevealed_last now s p

/-! ### Combo sequences (C6) -/

theorem comboSeq_nil (s : GameState) : comboSeq [] s = s := rfl

theorem comboSeq_cons (t : ℚ) (ts : List ℚ) (s : GameState) :
    comboSeq (t :: ts) s = comboSeq ts (comboUpdate t s) := rfl

/-- What max_combo actually is after any reveal-timestamp sequence: the
maximum of the combo values attained at fast reveals only (reveals whose
gap since the previous one is below one second); slow reveals reset the
combo to 1 without being fed into max_combo. -/
theorem comboSeq_maxCombo :
    ∀ (ts : List ℚ) (s : GameState),
      (comboSeq ts s).maxCombo = (comboFastTrace ts s).foldl max s.maxCombo := by
  intro ts
  induction ts with
  | nil => intro s; rfl
  | cons t ts ih =>
    intro s
    rw [comboSeq_cons, ih (comboUpdate t s)]
    have hcons : comboFastTrace (t :: ts) s =
        if t - s.lastRevealTime < 1 then
          (comboUpdate t s).combo :: comboFastTrace ts (comboUpdate t s)
        else comboFastTrace ts (comboUpdate t s) := rfl
    rw [hcons]
    by_cases h : t - s.lastRevealTime < 1
    · rw [if_pos h, List.foldl_cons, comboUpdate_max_fast h, comboUpdate_combo_fast h]
    · rw [if_neg h, comboUpdate_max_slow h]

/-! ### Chord reveal (C7) and its independence from SafetyNet (C1) -/

theorem chordReveal_not_applicable {f : ℕ} {now : ℚ} {s : GameState} {p : Coord}
    (h : s.revealed p = false ∨ s.grid p ≤ 0) :
    chordReveal f now s p = (s, false) := by
  unfold chordReveal
  rw [if_pos]
  rcases h with h | h
  · simp [h]
  · simp [h]

theorem chordReveal_mismatch {f : ℕ} {now : ℚ} {s : GameState} {p : Coord}
    (h1 : s.revealed p = true) (h2 : 0 < s.grid p)
    (h3 : ¬((chordFlagCount s p : ℤ) = s.grid p)) :
    chordReveal f now s p = (s, false) := by
  unfold chordReveal
  rw [if_neg (by simp [h1]; omega), if_neg h3]

theorem chordReveal_match {f : ℕ} {now : ℚ} {s : GameState} {p : Coord}
    (h1 : s.revealed p = true) (h2 : 0 < s.grid p)
    (h3 : (chordFlagCount s p : ℤ) = s.grid p) :
    chordReveal f now s p = (chordScan f now p nbhd s, true) := by
  unfold chordReveal
  rw [if_neg (by simp [h1]; omega), if_pos h3]


@[simp] theorem withSafety_gameOver (b : Bool) (s : GameState) :
    (withSafety b s).gameOver = s.gameOver := rfl

theorem comboUpdate_withSafety (now : ℚ) (b : Bool) (s : GameState) :
    comboUpdate now (withSafety b s) = withSafety b (comboUpdate now s) := by
  unfold comboUpdate withSafety
  dsimp only
  split <;> rfl

theorem markRevealed_withSafety (now : ℚ) (b : Bool) (s : GameState) (p : Coord) :
    markRevealed now (withSafety b s) p = withSafety b (markRevealed now s p) := by
  unfold markRevealed
  rw [comboUpdate_withSafety]
  rfl

theorem revealCell_withSafety {now : ℚ} (b : Bool) :
    ∀ (f : ℕ) (s : GameState) (p : Coord),
      revealCell f now (withSafety b s) p = withSafety b (revealCell f now s p) := by
  intro f
  induction f with
  | zero => intro s p; rfl
  | succ f ih =>
    intro s p
    rw [revealCell_succ, revealCell_succ]
    have hguard : (!inBounds (withSafety b s).gridSize p || (withSafety b s).revealed p ||
        (withSafety b s).flagged p) =
        (!inBounds s.gridSize p || s.revealed p || s.flagged p) := rfl
    rw [hguard]
    by_cases hg : (!inBounds s.gridSize p || s.revealed p || s.flagged p) = true
    · rw [if_pos hg, if_pos hg]
    · rw [if_neg hg, if_neg hg, markRevealed_withSafety]
      by_cases hz : (markRevealed now s p).grid p = 0
      · have hz2 : (withSafety b (markRevealed now s p)).grid p = 0 := hz
        rw [if_pos hz2, if_pos hz]
        have hfold : ∀ (ds : List (ℤ × ℤ)) (t : GameState),
            ds.foldl (fun t d => revealCell f now t (p.1 + d.1, p.2 + d.2))
              (withSafety b t) =
            withSafety b
              (ds.foldl (fun t d => revealCell f now t (p.1 + d.1, p.2 + d.2)) t) := by
          intro ds
          induction ds with
          | nil => intro t; rfl
          | cons d ds ihds =>
            intro t
            rw [List.foldl_cons, List.foldl_cons, ih, ihds]
        exact hfold nbhd (markRevealed now s p)
      · have hz2 : ¬(withSafety b (markRevealed now s p)).grid p = 0 := hz
        rw [if_neg hz2, if_neg hz]

theorem chordScan_withSafety {now : ℚ} {f : ℕ} {p : Coord} (b : Bool) :
    ∀ (ds : List (ℤ × ℤ)) (s : GameState),
      chordScan f now p ds (withSafety b s) = withSafety b (chordScan f now p ds s) := by
  intro ds
  induction ds with
  | nil => intro s; rfl
  | cons d ds ihds =>
    intro s
    unfold chordScan
    dsimp only
    have e1 : (inBounds (withSafety b s).gridSize (p.1 + d.1, p.2 + d.2) &&
        !(withSafety b s).flagged (p.1 + d.1, p.2 + d.2) &&
        !(withSafety b s).revealed (p.1 + d.1, p.2 + d.2)) =
        (inBounds s.gridSize (p.1 + d.1, p.2 + d.2) &&
        !s.flagged (p.1 + d.1, p.2 + d.2) && !s.revealed (p.1 + d.1, p.2 + d.2)) := rfl
    rw [e1]
    split
    · by_cases hm : s.grid (p.1 + d.1, p.2 + d.2) = -1
      · have hm2 : (withSafety b s).grid (p.1 + d.1, p.2 + d.2) = -1 := hm
        rw [if_pos hm2, if_pos hm]
        rfl
      · have hm2 : ¬(withSafety b s).grid (p.1 + d.1, p.2 + d.2) = -1 := hm
        rw [if_neg hm2, if_neg hm, revealCell_withSafety, ihds]
    · exact ihds s

theorem chordReveal_withSafety {f : ℕ} {now : ℚ} (b : Bool) (s : GameState) (p : Coord) :
    chordReveal f now (withSafety b s) p =
      (withSafety b (chordReveal f now s p).1, (chordReveal f now s p).2) := by
  unfold chordReveal
  have e1 : (!(withSafety b s).revealed p || decide ((withSafety b s).grid p ≤ 0)) =
      (!s.revealed p || decide (s.grid p ≤ 0)) := rfl
  rw [e1]
  split
  · rfl
  · by_cases hm : (chordFlagCount s p : ℤ) = s.grid p
    · have hm2 : (chordFlagCount (withSafety b s) p : ℤ) = (withSafety b s).grid p := hm
      rw [if_pos hm2, if_pos hm, chordScan_withSafety]
    · have hm2 : ¬(chordFlagCount (withSafety b s) p : ℤ) = (withSafety b s).grid p := hm
      rw [if_neg hm2, if_neg hm]

/-! ### Win detection and the click dispatcher -/

theorem checkWin_sets {s : GameState} (h : unrevealedCount s = s.minesTotal) :
    (checkWin s).win = true := by
  unfold checkWin
  rw [if_pos h]

theorem checkWin_id {s : GameState} (h : ¬unrevealedCount s = s.minesTotal) :
    checkWin s = s := by
  unfold checkWin
  rw [if_neg h]

@[simp] theorem checkWin_revealed (s : GameState) : (checkWin s).revealed = s.revealed := by
  unfold checkWin; split <;> rfl

@[simp] theorem checkWin_gridSize (s : GameState) : (checkWin s).gridSize = s.gridSize := by
  unfold checkWin; split <;> rfl

@[simp] theorem checkWin_minesTotal (s : GameState) :
    (checkWin s).minesTotal = s.minesTotal := by
  unfold checkWin; split <;> rfl

theorem unrevealedCount_checkWin (s : GameState) :
    unrevealedCount (checkWin s) = unrevealedCount s := by
  unfold unrevealedCount
  rw [checkWin_gridSize, checkWin_revealed]

theorem checkWin_win_of_false {s : GameState} (hw : s.win = false)
    (h : (checkWin s).win = true) : unrevealedCount s = s.minesTotal := by
  by_cases hc : unrevealedCount s = s.minesTotal
  · exact hc
  · rw [checkWin_id hc] at h
    rw [hw] at h
    cases h

/-- The win flag after check_win, given the flag state is replaced
arbitrarily: flags play no role in win detection. -/
theorem checkWin_flag_invariant (s : GameState) (g : Coord → Bool) :
    (checkWin { s with flagged := g }).win = (checkWin s).win := by
  have hcount : unrevealedCount { s with flagged := g } = unrevealedCount s := rfl
  by_cases hc : unrevealedCount s = s.minesTotal
  · have hc2 : unrevealedCount { s with flagged := g } =
        ({ s with flagged := g } : GameState).minesTotal := hc
    rw [checkWin_sets hc2, checkWin_sets hc]
  · have hc2 : ¬unrevealedCount { s with flagged := g } =
        ({ s with flagged := g } : GameState).minesTotal := hc
    rw [checkWin_id hc2, checkWin_id hc]

theorem chordScan_facts {f : ℕ} {now : ℚ} {p : Coord} :
    ∀ (ds : List (ℤ × ℤ)) (s : GameState),
      (chordScan f now p ds s).win = s.win ∧
      (chordScan f now p ds s).minesTotal = s.minesTotal ∧
      (chordScan f now p ds s).gridSize = s.gridSize := by
  intro ds
  induction ds with
  | nil => intro s; exact ⟨rfl, rfl, rfl⟩
  | cons d ds ihds =>
    intro s
    unfold chordScan
    dsimp only
    split
    · split
      · exact ⟨rfl, rfl, rfl⟩
      · obtain ⟨h1, h2, h3⟩ := ihds (revealCell f now s (p.1 + d.1, p.2 + d.2))
        have hf := revealCell_Frame f now s (p.1 + d.1, p.2 + d.2)
        exact ⟨h1.trans hf.win, h2.trans hf.minesTotal, h3.trans hf.gridSize⟩
    · exact ihds s

theorem chordReveal_fst_facts {f : ℕ} {now : ℚ} {s : GameState} {p : Coord} :
    (chordReveal f now s p).1.win = s.win ∧
    (chordReveal f now s p).1.minesTotal = s.minesTotal ∧
    (chordReveal f now s p).1.gridSize = s.gridSize := by
  unfold chordReveal
  split
  · exact ⟨rfl, rfl, rfl⟩
  · split
    · exact chordScan_facts nbhd s
    · exact ⟨rfl, rfl, rfl⟩

theorem revealAreaActivate_Frame (f : ℕ) (now : ℚ) (p : Coord) (s : GameState) :
    Frame s (revealAreaActivate f now p s) := by
  unfold revealAreaActivate
  have h0 : Frame s { s with revealActive := true } :=
    ⟨rfl, rfl, rfl, rfl, rfl, rfl, rfl, fun _ h => h⟩
  refine Frame.trans h0 (foldl_Frame ?_ offs2 _)
  intro t dx
  refine foldl_Frame ?_ offs2 t
  intro t2 dy
  dsimp only
  split
  · exact revealCell_Frame f now t2 _
  · exact Frame.rfl t2

theorem powerKeyStep_Frame (f : ℕ) (now : ℚ) (key : Key) (p : Coord) (s : GameState) :
    Frame s (powerKeyStep f now key p s) := by
  unfold powerKeyStep
  cases key
  · exact Frame.rfl s
  · dsimp only
    split
    · have hf := revealAreaActivate_Frame f now p s
      exact ⟨hf.gridSize, hf.minesTotal, hf.grid, hf.flagged, hf.gameOver, hf.win,
        hf.firstClick, hf.mono⟩
    · exact Frame.rfl s
  · dsimp only
    split
    · exact ⟨rfl, rfl, rfl, rfl, rfl, rfl, rfl, fun _ h => h⟩
    · exact Frame.rfl s
  · dsimp only
    split
    · exact ⟨rfl, rfl, rfl, rfl, rfl, rfl, rfl, fun _ h => h⟩
    · exact Frame.rfl s

theorem flagToggle_win (p : Coord) (s : GameState) : (flagToggle p s).win = s.win := by
  unfold flagToggle
  split
  · dsimp only
    split
    · rfl
    · split
      · rfl
      · rfl
  · rfl


theorem handleClick_eq (f : ℕ) (now : ℚ) (key : Key) (right : Bool) (L : List Coord)
    (p : Coord) (s : GameState) :
    handleClick f now key right L p s =
      if s.gameOver || s.win then s
      else if !inBounds s.gridSize p then s
      else if right then flagToggle p (powerKeyStep f now key p s)
      else if (powerKeyStep f now key p s).flagged p then powerKeyStep f now key p s
      else afterFlag f now L p (powerKeyStep f now key p s) := rfl

theorem chordReveal_false_eq {f : ℕ} {now : ℚ} {s : GameState} {p : Coord}
    (h : (chordReveal f now s p).2 = false) : chordReveal f now s p = (s, false) := by
  unfold chordReveal
  split
  · rfl
  · split
    · exfalso
      rename_i hna hfc
      unfold chordReveal at h
      rw [if_neg hna, if_pos hfc] at h
      cases h
    · rfl

@[simp] theorem placeStep_win (now : ℚ) (L : List Coord) (t : GameState) :
    (placeStep now L t).win = t.win := by
  unfold placeStep; split <;> rfl

@[simp] theorem placeStep_minesTotal (now : ℚ) (L : List Coord) (t : GameState) :
    (placeStep now L t).minesTotal = t.minesTotal := by
  unfold placeStep; split <;> rfl

@[simp] theorem placeStep_gridSize (now : ℚ) (L : List Coord) (t : GameState) :
    (placeStep now L t).gridSize = t.gridSize := by
  unfold placeStep; split <;> rfl

theorem chordPick_fst_win (f : ℕ) (now : ℚ) (s1 : GameState) (p : Coord) :
    (chordPick f now s1 p).1.win = s1.win := by
  unfold chordPick
  split
  · exact chordReveal_fst_facts.1
  · rfl

theorem win_inv_checkWin {t : GameState} (hw : t.win = false) :
    (checkWin t).win = true →
      unrevealedCount (checkWin t) = (checkWin t).minesTotal := by
  intro h
  rw [unrevealedCount_checkWin, checkWin_minesTotal]
  exact checkWin_win_of_false hw h

theorem mineTail_win_inv {f : ℕ} {now : ℚ} {p : Coord} {t : GameState}
    (hw : t.win = false) :
    (mineTail f now p t).win = true →
      unrevealedCount (mineTail f now p t) = (mineTail f now p t).minesTotal := by
  unfold mineTail
  split
  · split
    · intro h; rw [hw] at h; cases h
    · intro h
      rw [show ({ t with gameOver := true } : GameState).win = t.win from rfl, hw] at h
      cases h
  · have hwr : (revealCell f now t p).win = false :=
      (revealCell_Frame f now t p).win.trans hw
    exact win_inv_checkWin hwr

theorem afterFlag_win_inv {f : ℕ} {now : ℚ} {L : List Coord} {p : Coord}
    {s1 : GameState} (hw : s1.win = false) :
    (afterFlag f now L p s1).win = true →
      unrevealedCount (afterFlag f now L p s1) = (afterFlag f now L p s1).minesTotal := by
  unfold afterFlag
  split
  · have hwc : (chordPick f now s1 p).1.win = false :=
      (chordPick_fst_win f now s1 p).trans hw
    exact win_inv_checkWin hwc
  · have hw3 : (placeStep now L (chordPick f now s1 p).1).win = false := by
      rw [placeStep_win]
      exact (chordPick_fst_win f now s1 p).trans hw
    exact mineTail_win_inv hw3

theorem handleClick_win_inv (f : ℕ) (now : ℚ) (key : Key) (right : Bool)
    (L : List Coord) (p : Coord) (s : GameState) (hw : s.win = false) :
    (handleClick f now key right L p s).win = true →
      unrevealedCount (handleClick f now key right L p s) =
        (handleClick f now key right L p s).minesTotal := by
  rw [handleClick_eq]
  split
  · intro h; rw [hw] at h; cases h
  · split
    · intro h; rw [hw] at h; cases h
    · have hw1 : (powerKeyStep f now key p s).win = false :=
        (powerKeyStep_Frame f now key p s).win.trans hw
      split
      · intro h
        rw [flagToggle_win, hw1] at h
        cases h
      · split
        · intro h; rw [hw1] at h; cases h
        · exact afterFlag_win_inv hw1

/-! ### The tick and the reachability invariant (C3) -/

@[simp] theorem checkAchievements_win (s : GameState) :
    (checkAchievements s).win = s.win := rfl

@[simp] theorem checkAchievements_revealed (s : GameState) :
    (checkAchievements s).revealed = s.revealed := rfl

@[simp] theorem checkAchievements_gridSize (s : GameState) :
    (checkAchievements s).gridSize = s.gridSize := rfl

@[simp] theorem checkAchievements_minesTotal (s : GameState) :
    (checkAchievements s).minesTotal = s.minesTotal := rfl

@[simp] theorem updateTimer_win (now : ℚ) (s : GameState) :
    (updateTimer now s).win = s.win := by
  unfold updateTimer; split <;> rfl

@[simp] theorem updateTimer_revealed (now : ℚ) (s : GameState) :
    (updateTimer now s).revealed = s.revealed := by
  unfold updateTimer; split <;> rfl

@[simp] theorem updateTimer_gridSize (now : ℚ) (s : GameState) :
    (updateTimer now s).gridSize = s.gridSize := by
  unfold updateTimer; split <;> rfl

@[simp] theorem updateTimer_minesTotal (now : ℚ) (s : GameState) :
    (updateTimer now s).minesTotal = s.minesTotal := by
  unfold updateTimer; split <;> rfl

theorem tick_win (now : ℚ) (s : GameState) : (tick now s).win = s.win := by
  unfold tick
  rw [updateTimer_win, checkAchievements_win]

theorem tick_minesTotal (now : ℚ) (s : GameState) :
    (tick now s).minesTotal = s.minesTotal := by
  unfold tick
  rw [updateTimer_minesTotal, checkAchievements_minesTotal]

theorem unrevealedCount_tick (now : ℚ) (s : GameState) :
    unrevealedCount (tick now s) = unrevealedCount s := by
  unfold tick unrevealedCount
  rw [updateTimer_gridSize, checkAchievements_gridSize, updateTimer_revealed,
    checkAchievements_revealed]

theorem step_win_inv {s s2 : GameState} (hstep : Step s s2)
    (hinv : s.win = true → unrevealedCount s = s.minesTotal) :
    s2.win = true → unrevealedCount s2 = s2.minesTotal := by
  cases hstep with
  | click now key right L p hok =>
    cases hw : s.win
    · exact handleClick_win_inv _ now key right L p s hw
    · have he : handleClick (stepFuel s) now key right L p s = s := by
        rw [handleClick_eq, if_pos (by rw [hw]; simp)]
      rw [he]
      exact hinv
  | restartKey =>
    intro h
    rw [show (resetGame s).win = false from rfl] at h
    cases h
  | diffButton d =>
    intro h
    rw [show (applyDifficulty d s).win = false from rfl] at h
    cases h
  | frame now =>
    intro h
    rw [tick_win] at h
    rw [unrevealedCount_tick, tick_minesTotal]
    exact hinv h

theorem reachable_win_inv {s : GameState} (h : Reachable s) :
    s.win = true → unrevealedCount s = s.minesTotal := by
  unfold Reachable at h
  induction h with
  | refl =>
    intro h1
    rw [show initState.win = false from rfl] at h1
    cases h1
  | tail hr hstep ih => exact step_win_inv hstep ih

/-! ### Mine placement (C2) -/


theorem placeMine_eq (n : ℤ) (g : Coord → ℤ) (m : Coord) :
    placeMine n g m = nbhd.foldl (bumpNeighbour n m) (Function.update g m (-1)) := rfl

theorem bump_agree {n : ℤ} {m : Coord} {h : Coord → ℤ} {d : ℤ × ℤ} {q : Coord}
    (hq : q ≠ (m.1 + d.1, m.2 + d.2)) : bumpNeighbour n m h d q = h q := by
  unfold bumpNeighbour
  split
  · rw [Function.update_apply, if_neg hq]
  · rfl

theorem foldBump_not_mem {n : ℤ} {m : Coord} :
    ∀ (ds : List (ℤ × ℤ)) (h : Coord → ℤ) (q : Coord),
      (∀ d ∈ ds, q ≠ (m.1 + d.1, m.2 + d.2)) →
      (ds.foldl (bumpNeighbour n m) h) q = h q := by
  intro ds
  induction ds with
  | nil => intro h q _; rfl
  | cons d ds ihds =>
    intro h q hq
    rw [List.foldl_cons]
    rw [ihds _ q (fun e he => hq e (List.mem_cons_of_mem _ he))]
    exact bump_agree (hq d (List.mem_cons_self d ds))

theorem foldBump_keep_mine {n : ℤ} {m : Coord} :
    ∀ (ds : List (ℤ × ℤ)) (h : Coord → ℤ) (q : Coord),
      h q = -1 → (ds.foldl (bumpNeighbour n m) h) q = -1 := by
  intro ds
  induction ds with
  | nil => intro h q hq; exact hq
  | cons d ds ihds =>
    intro h q hq
    rw [List.foldl_cons]
    refine ihds _ q ?_
    by_cases he : q = (m.1 + d.1, m.2 + d.2)
    · unfold bumpNeighbour
      split
      · rename_i hcnd
        rw [← he] at hcnd
        rw [hq] at hcnd
        simp at hcnd
      · exact hq
    · rw [bump_agree he]
      exact hq

theorem foldBump_mem {n : ℤ} {m : Coord} :
    ∀ (ds : List (ℤ × ℤ)) (h : Coord → ℤ) (d : ℤ × ℤ),
      (ds.map (fun d => (m.1 + d.1, m.2 + d.2))).Nodup → d ∈ ds →
      (ds.foldl (bumpNeighbour n m) h) (m.1 + d.1, m.2 + d.2) =
        if inBounds n (m.1 + d.1, m.2 + d.2) = true ∧ h (m.1 + d.1, m.2 + d.2) ≠ -1
        then h (m.1 + d.1, m.2 + d.2) + 1 else h (m.1 + d.1, m.2 + d.2) := by
  intro ds
  induction ds with
  | nil => intro h d _ hd; cases hd
  | cons e ds ihds =>
    intro h d hnd hd
    rw [List.map_cons] at hnd
    have hnd2 := hnd.of_cons
    rw [List.foldl_cons]
    rcases List.mem_cons.mp hd with rfl | hd2
    · have hnotin : ∀ e2 ∈ ds, (m.1 + d.1, m.2 + d.2) ≠ (m.1 + e2.1, m.2 + e2.2) := by
        intro e2 he2 hcontra
        have := (List.nodup_cons.mp hnd).1
        exact this (by
          rw [hcontra]
          exact List.mem_map_of_mem _ he2)
      rw [foldBump_not_mem ds _ _ hnotin]
      unfold bumpNeighbour
      by_cases hcond : inBounds n (m.1 + d.1, m.2 + d.2) = true ∧
          h (m.1 + d.1, m.2 + d.2) ≠ -1
      · rw [if_pos (by simp [hcond.1, hcond.2]), if_pos hcond]
        rw [Function.update_apply, if_pos rfl]
      · rw [if_neg (by
          intro hb
          rw [Bool.and_eq_true, decide_eq_true_eq] at hb
          exact hcond ⟨hb.1, hb.2⟩), if_neg hcond]
    · have hne : (m.1 + d.1, m.2 + d.2) ≠ (m.1 + e.1, m.2 + e.2) := by
        intro hcontra
        have := (List.nodup_cons.mp hnd).1
        exact this (by rw [← hcontra]; exact List.mem_map_of_mem _ hd2)
      rw [ihds _ d hnd2 hd2, bump_agree hne]

theorem nbhd_nodup : nbhd.Nodup := by decide

theorem nbhd_cells_nodup (m : Coord) :
    (nbhd.map (fun d => (m.1 + d.1, m.2 + d.2))).Nodup := by
  refine List.Nodup.map ?_ nbhd_nodup
  intro a b hab
  have h1 : m.1 + a.1 = m.1 + b.1 := congrArg Prod.fst hab
  have h2 : m.2 + a.2 = m.2 + b.2 := congrArg Prod.snd hab
  obtain ⟨a1, a2⟩ := a
  obtain ⟨b1, b2⟩ := b
  simp only at h1 h2
  simp only [Prod.mk.injEq]
  omega


theorem placeMine_self (n : ℤ) (g : Coord → ℤ) (m : Coord) : placeMine n g m m = -1 := by
  rw [placeMine_eq]
  exact foldBump_keep_mine nbhd _ m (by rw [Function.update_apply, if_pos rfl])

theorem placeMine_other {n : ℤ} {g : Coord → ℤ} {m q : Coord} (hq : q ≠ m) :
    placeMine n g m q =
      if cheb1 m q ∧ inBounds n q = true ∧ g q ≠ -1 then g q + 1 else g q := by
  rw [placeMine_eq]
  have hbase : Function.update g m (-1) q = g q := by
    rw [Function.update_apply, if_neg hq]
  by_cases hc : cheb1 m q
  · obtain ⟨d, hd, rfl⟩ := mem_nbhd_of_cheb1 hc
    rw [foldBump_mem nbhd _ d (nbhd_cells_nodup m) hd]
    by_cases hcond : inBounds n (m.1 + d.1, m.2 + d.2) = true ∧
        g (m.1 + d.1, m.2 + d.2) ≠ -1
    · have hcond2 : inBounds n (m.1 + d.1, m.2 + d.2) = true ∧
          Function.update g m (-1) (m.1 + d.1, m.2 + d.2) ≠ -1 :=
        ⟨hcond.1, by rw [hbase]; exact hcond.2⟩
      rw [if_pos hcond2, if_pos ⟨hc, hcond⟩, hbase]
    · have hcond2 : ¬(inBounds n (m.1 + d.1, m.2 + d.2) = true ∧
          Function.update g m (-1) (m.1 + d.1, m.2 + d.2) ≠ -1) := by
        intro hx
        rw [hbase] at hx
        exact hcond hx
      rw [if_neg hcond2, if_neg (by
        intro hx
        exact hcond ⟨hx.2.1, hx.2.2⟩), hbase]
  · rw [foldBump_not_mem nbhd _ q ?_, hbase, if_neg (by intro hx; exact hc hx.1)]
    intro d hd hcontra
    exact hc (hcontra ▸ cheb1_of_mem_nbhd hd)

theorem placeMinesGrid_spec (n : ℤ) :
    ∀ (L : List Coord) (g : Coord → ℤ),
      L.Nodup → (∀ m ∈ L, g m ≠ -1) → (∀ q, g q = -1 ∨ 0 ≤ g q) →
      (∀ q ∈ L, placeMinesGrid n g L q = -1) ∧
      (∀ q, q ∉ L → g q = -1 → placeMinesGrid n g L q = -1) ∧
      (∀ q, q ∉ L → g q ≠ -1 →
        placeMinesGrid n g L q =
          g q + (if inBounds n q = true
            then ((L.filter (fun m => decide (cheb1 m q))).length : ℤ) else 0)) := by
  intro L
  induction L with
  | nil =>
    intro g _ _ _
    refine ⟨by simp, fun q _ h => h, fun q _ _ => ?_⟩
    show g q = g q + (if inBounds n q = true then ((0 : ℕ) : ℤ) else 0)
    split <;> simp
  | cons m L ihL =>
    intro g hnd hnm hnn
    have hmnotL : m ∉ L := (List.nodup_cons.mp hnd).1
    have hndL : L.Nodup := (List.nodup_cons.mp hnd).2
    have hgm : g m ≠ -1 := hnm m (List.mem_cons_self m L)
    have hunfold : placeMinesGrid n g (m :: L) = placeMinesGrid n (placeMine n g m) L := rfl
    have hg1m : placeMine n g m m = -1 := placeMine_self n g m
    have hg1other : ∀ q, q ≠ m → placeMine n g m q =
        if cheb1 m q ∧ inBounds n q = true ∧ g q ≠ -1 then g q + 1 else g q :=
      fun q hq => placeMine_other hq
    have hnn1 : ∀ q, placeMine n g m q = -1 ∨ 0 ≤ placeMine n g m q := by
      intro q
      by_cases hq : q = m
      · left; rw [hq]; exact hg1m
      · rw [hg1other q hq]
        split
        · rename_i hcnd
          right
          rcases hnn q with h | h
          · exact absurd h hcnd.2.2
          · omega
        · exact hnn q
    have hnm1 : ∀ m2 ∈ L, placeMine n g m m2 ≠ -1 := by
      intro m2 hm2
      have hne : m2 ≠ m := fun h => hmnotL (h ▸ hm2)
      rw [hg1other m2 hne]
      have hgm2 := hnm m2 (List.mem_cons_of_mem _ hm2)
      rcases hnn m2 with h | h
      · exact absurd h hgm2
      · split
        · omega
        · exact hgm2
    obtain ⟨I1, I2, I3⟩ := ihL (placeMine n g m) hndL hnm1 hnn1
    refine ⟨?_, ?_, ?_⟩
    · intro q hq
      rcases List.mem_cons.mp hq with rfl | hqL
      · rw [hunfold]
        exact I2 q hmnotL hg1m
      · rw [hunfold]
        exact I1 q hqL
    · intro q hq hgq
      have hqm : q ≠ m := fun h => hq (h ▸ List.mem_cons_self m L)
      have hqL : q ∉ L := fun h => hq (List.mem_cons_of_mem _ h)
      rw [hunfold]
      refine I2 q hqL ?_
      rw [hg1other q hqm, if_neg (fun hx => hx.2.2 hgq)]
      exact hgq
    · intro q hq hgq
      have hqm : q ≠ m := fun h => hq (h ▸ List.mem_cons_self m L)
      have hqL : q ∉ L := fun h => hq (List.mem_cons_of_mem _ h)
      have hq0 : 0 ≤ g q := by
        rcases hnn q with h | h
        · exact absurd h hgq
        · exact h
      have hg1ne : placeMine n g m q ≠ -1 := by
        rw [hg1other q hqm]
        split
        · omega
        · exact hgq
      rw [hunfold, I3 q hqL hg1ne, hg1other q hqm]
      rw [List.filter_cons]
      by_cases hcb : cheb1 m q
      · by_cases hib : inBounds n q = true
        · rw [if_pos ⟨hcb, hib, hgq⟩, if_pos hib, if_pos hib,
            if_pos (show decide (cheb1 m q) = true by simpa using hcb)]
          rw [List.length_cons]
          push_cast
          ring
        · rw [if_neg (fun hx => hib hx.2.1), if_neg hib, if_neg hib]
      · rw [if_neg (fun hx => hcb hx.1),
          if_neg (show ¬decide (cheb1 m q) = true by simpa using hcb)]

theorem cellList_length (n : ℤ) : (cellList n).length = n.toNat * n.toNat := by
  unfold cellList
  rw [List.length_flatMap]
  have hmap : (List.range n.toNat).map
      (List.length ∘ fun (x : ℕ) =>
        (List.range n.toNat).map (fun (y : ℕ) => ((x : ℤ), (y : ℤ)))) =
      (List.range n.toNat).map (fun _ => n.toNat) := by
    apply List.map_congr_left
    intro x _
    simp [Function.comp]
  rw [hmap]
  simp [List.map_const', smul_eq_mul]

theorem candidates_lower (n : ℤ) (fc : Coord) :
    (cellList n).length ≤ ((cellList n).filter (fun m => candidate n fc m)).length + 9 := by
  have hsplit : (cellList n).length =
      (cellList n).countP (fun m => candidate n fc m) +
      (cellList n).countP (fun m => !(candidate n fc m)) := by
    rw [List.length_eq_countP_add_countP (p := fun m => candidate n fc m)]
    congr 1
    apply List.countP_congr
    intro a _
    simp
  have hcompl : (cellList n).countP (fun m => !(candidate n fc m)) ≤ 9 := by
    have hsub : ∀ q ∈ (cellList n).filter (fun m => !(candidate n fc m)),
        q ∈ nbhd.map (fun d => (fc.1 + d.1, fc.2 + d.2)) := by
      intro q hq
      rw [List.mem_filter] at hq
      have hin := mem_cellList.mp hq.1
      have hcheb : cheb1 fc q := by
        have h2 := hq.2
        simp only [candidate, hin, Bool.true_and, Bool.not_eq_true', Bool.or_eq_false_iff,
          decide_eq_false_iff_not, not_lt] at h2
        exact ⟨h2.1, h2.2⟩
      obtain ⟨d, hd, rfl⟩ := mem_nbhd_of_cheb1 hcheb
      exact List.mem_map_of_mem _ hd
    have hnodup : ((cellList n).filter (fun m => !(candidate n fc m))).Nodup :=
      (cellList_nodup n).filter _
    have h1 : ((cellList n).filter (fun m => !(candidate n fc m))).toFinset ⊆
        (nbhd.map (fun d => (fc.1 + d.1, fc.2 + d.2))).toFinset := by
      intro x hx
      rw [List.mem_toFinset] at hx ⊢
      exact hsub x hx
    calc (cellList n).countP (fun m => !(candidate n fc m))
        = ((cellList n).filter (fun m => !(candidate n fc m))).length := by
          rw [List.countP_eq_length_filter]
      _ = ((cellList n).filter (fun m => !(candidate n fc m))).toFinset.card :=
          (List.toFinset_card_of_nodup hnodup).symm
      _ ≤ (nbhd.map (fun d => (fc.1 + d.1, fc.2 + d.2))).toFinset.card :=
          Finset.card_le_card h1
      _ ≤ (nbhd.map (fun d => (fc.1 + d.1, fc.2 + d.2))).length :=
          (nbhd.map _).toFinset_card_le
      _ = 9 := by rw [List.length_map]; rfl
  simp only [List.countP_eq_length_filter] at hsplit hcompl
  omega

/-! ### Achievement and frame support for the claims -/

theorem checkAchievements_comboMaster {s : GameState} (h : 10 ≤ s.maxCombo) :
    (checkAchievements s).achievements.comboMaster = true := by
  unfold checkAchievements
  dsimp only
  rw [if_pos h]

theorem revealCell_revealed_of {f : ℕ} {now : ℚ} {s : GameState} {p q : Coord}
    (h : s.revealed q = true) : (revealCell f now s p).revealed q = true :=
  (revealCell_Frame f now s p).mono q h

/-! ### The claims -/

set_option maxRecDepth 4000000

section ClaimSection

attribute [local semireducible] Rat.sub Rat.add Rat.mul Rat.inv

/-- Claim C1, counterexample: mine loss is not suppressed "if and only
if SafetyNet is active".  Left: revealing the mine at (0, 0) while only
RevealArea is active (SafetyNet inactive) leaves gameOver false, so a
power-up other than SafetyNet suppresses the Loss transition.  Right: a
chord on (1, 1) whose scan reveals the mine at (0, 1) sets gameOver
even though SafetyNet is active, so the chord path is not suppressed. -/
theorem claim1_counterexample :
    (c1reveal.safetyActive = false ∧ c1reveal.grid (0, 0) = -1 ∧ c1reveal.gameOver = false ∧
      (handleClick 65 1 .none false [] (0, 0) c1reveal).gameOver = false) ∧
    (c1chord.safetyActive = true ∧ c1chord.gameOver = false ∧
      (handleClick 65 1 .none false [] (1, 1) c1chord).gameOver = true) :=
  ⟨⟨rfl, by decide, rfl, by decide⟩, ⟨rfl, rfl, by decide⟩⟩

/-- Claim C1, amended: for a left click (no power-up key) on an
in-bounds, unflagged, unrevealed mine cell after first-click placement,
handle_click sets game_over exactly when NO power-up is active — any of
the three active flags (not only SafetyNet) suppresses the Loss
transition; and the chord-reveal path ignores the SafetyNet flag
entirely: its outcome is equivariant under overwriting safety_net.active,
so an active SafetyNet does not suppress a chord-triggered loss. -/
theorem claim1_amended (f : ℕ) (now : ℚ) (L : List Coord) (p : Coord) (s : GameState)
    (hgo : s.gameOver = false) (hw : s.win = false) (hb : inBounds s.gridSize p = true)
    (hfl : s.flagged p = false) (hrv : s.revealed p = false) (hfc : s.firstClick = false)
    (hmine : s.grid p = -1) :
    (handleClick f now .none false L p s).gameOver = !anyPowerActive s ∧
    (∀ (b : Bool) (q : Coord),
      chordReveal f now (withSafety b s) q =
        (withSafety b (chordReveal f now s q).1, (chordReveal f now s q).2)) := by
  constructor
  · rw [handleClick_eq]
    rw [if_neg (by simp [hgo, hw]), if_neg (by simp [hb]), if_neg (by simp)]
    have hpk : powerKeyStep f now .none p s = s := rfl
    rw [hpk, if_neg (by simp [hfl])]
    unfold afterFlag chordPick
    have hcp : (if s.revealed p && decide (0 < s.grid p) then chordReveal f now s p
        else (s, false)) = (s, false) := if_neg (by simp [hrv])
    rw [hcp]
    rw [if_neg (by simp : ¬((s, false).2 = true))]
    show (mineTail f now p (placeStep now L s)).gameOver = _
    unfold placeStep
    rw [if_neg (by simp [hfc])]
    unfold mineTail
    rw [if_pos hmine]
    cases hap : anyPowerActive s
    · rfl
    · show s.gameOver = !true
      simp [hgo]
  · intro b q
    exact chordReveal_withSafety b s q

/-- Claim C1, witness: the amended theorem instantiated on the concrete
board c1reveal at its mine (0, 0). -/
theorem claim1_witness :
    c1reveal.gameOver = false ∧ c1reveal.win = false ∧
    inBounds c1reveal.gridSize (0, 0) = true ∧ c1reveal.flagged (0, 0) = false ∧
    c1reveal.revealed (0, 0) = false ∧ c1reveal.firstClick = false ∧
    c1reveal.grid (0, 0) = -1 ∧
    ((handleClick 65 1 .none false [] (0, 0) c1reveal).gameOver = !anyPowerActive c1reveal ∧
      (∀ (b : Bool) (q : Coord),
        chordReveal 65 1 (withSafety b c1reveal) q =
          (withSafety b (chordReveal 65 1 c1reveal q).1, (chordReveal 65 1 c1reveal q).2))) :=
  ⟨rfl, rfl, by decide, rfl, rfl, rfl, by decide,
    claim1_amended 65 1 [] (0, 0) c1reveal rfl rfl (by decide) rfl rfl rfl (by decide)⟩

/-- Claim C2: place_mines on an empty grid with any distinct list of
candidate positions (what random.sample produces) yields exactly
L.length mine cells on the board, no mine within Chebyshev distance 1
of the first click, and every in-bounds non-mine cell carrying the
count of mines at Chebyshev distance 1 from it; and on each difficulty
the candidate set of every first click is at least mine_count large, so
a sample of that size exists. -/
theorem claim2_place_mines (n : ℤ) (fc : Coord) (L : List Coord)
    (hnd : L.Nodup) (hcand : ∀ m ∈ L, candidate n fc m = true) :
    (((cellList n).filter
        (fun q => decide (placeMinesGrid n (fun _ => 0) L q = -1))).length = L.length) ∧
    (∀ q, cheb1 fc q → placeMinesGrid n (fun _ => 0) L q ≠ -1) ∧
    (∀ q, inBounds n q = true → placeMinesGrid n (fun _ => 0) L q ≠ -1 →
      placeMinesGrid n (fun _ => 0) L q =
        ((L.filter (fun m => decide (cheb1 m q))).length : ℤ)) ∧
    (∀ (d : Diff) (fc2 : Coord),
      d.mineCount ≤ ((cellList d.size).filter (fun m => candidate d.size fc2 m)).length) := by
  obtain ⟨hsp1, hsp2, hsp3⟩ :=
    placeMinesGrid_spec n L (fun _ => 0) hnd (fun m _ => by simp) (fun q => Or.inr le_rfl)
  have hvalue : ∀ q, q ∉ L → placeMinesGrid n (fun _ => 0) L q =
      (if inBounds n q = true then ((L.filter (fun m => decide (cheb1 m q))).length : ℤ)
        else 0) := by
    intro q hq
    have h := hsp3 q hq (by simp)
    rw [h]
    simp
  have mine_iff : ∀ q, placeMinesGrid n (fun _ => 0) L q = -1 ↔ q ∈ L := by
    intro q
    constructor
    · intro h
      by_contra hq
      rw [hvalue q hq] at h
      split at h <;> omega
    · exact hsp1 q
  refine ⟨?_, ?_, ?_, ?_⟩
  · have hLsub : ∀ m ∈ L, m ∈ cellList n := by
      intro m hm
      have hc := hcand m hm
      simp only [candidate, Bool.and_eq_true] at hc
      exact mem_cellList.mpr hc.1
    have hset : ((cellList n).filter
        (fun q => decide (placeMinesGrid n (fun _ => 0) L q = -1))).toFinset =
        L.toFinset := by
      ext q
      simp only [List.mem_toFinset, List.mem_filter, decide_eq_true_eq, mine_iff]
      exact ⟨fun h => h.2, fun h => ⟨hLsub q h, h⟩⟩
    have h1 := List.toFinset_card_of_nodup
      ((cellList_nodup n).filter
        (fun q => decide (placeMinesGrid n (fun _ => 0) L q = -1)))
    have h2 := List.toFinset_card_of_nodup hnd
    rw [← h1, ← h2, hset]
  · intro q hcheb
    have hq : q ∉ L := by
      intro hmem
      have hc := hcand q hmem
      simp only [candidate, Bool.and_eq_true, Bool.or_eq_true, decide_eq_true_eq] at hc
      obtain ⟨hd1, hd2⟩ := hcheb
      omega
    rw [hvalue q hq]
    split <;> omega
  · intro q hin hnm
    have hq : q ∉ L := fun hmem => hnm ((mine_iff q).mpr hmem)
    rw [hvalue q hq, if_pos hin]
  · intro d fc2
    have h := candidates_lower d.size fc2
    rw [cellList_length] at h
    have key : d.mineCount + 9 ≤ d.size.toNat * d.size.toNat := by cases d <;> decide
    omega

/-- Claim C2, witness: the placement theorem instantiated on the easy
board with first click (0, 0) and the sample mines10. -/
theorem claim2_witness :
    (mines10.Nodup ∧ ∀ m ∈ mines10, candidate 8 (0, 0) m = true) ∧
    ((((cellList 8).filter
        (fun q => decide (placeMinesGrid 8 (fun _ => 0) mines10 q = -1))).length
        = mines10.length) ∧
      (∀ q, cheb1 (0, 0) q → placeMinesGrid 8 (fun _ => 0) mines10 q ≠ -1) ∧
      (∀ q, inBounds 8 q = true → placeMinesGrid 8 (fun _ => 0) mines10 q ≠ -1 →
        placeMinesGrid 8 (fun _ => 0) mines10 q =
          ((mines10.filter (fun m => decide (cheb1 m q))).length : ℤ)) ∧
      (∀ (d : Diff) (fc2 : Coord),
        d.mineCount ≤ ((cellList d.size).filter (fun m => candidate d.size fc2 m)).length)) :=
  ⟨⟨by decide, by decide⟩, claim2_place_mines 8 (0, 0) mines10 (by decide) (by decide)⟩

/-- Claim C3, counterexample to "win flag is set if and only if
unrevealed = mine count" over reachable states: cex3c is reachable
(easy button, a first click, then a click holding the RevealArea key
whose activation reveals the last numbered pocket while the click
itself dies on the power-up guard), its unrevealed-cell count equals
minesTotal, yet win is still false — check_win only runs on reveal and
chord paths, not after a power-up activation. -/
theorem claim3_counterexample :
    Reachable cex3c ∧ unrevealedCount cex3c = cex3c.minesTotal ∧ cex3c.win = false := by
  refine ⟨?_, by decide!, by decide!⟩
  have h1 : Step initState easyStart := Step.diffButton initState .easy
  have h2 : Step easyStart cex3b :=
    Step.click easyStart 1 .none false mines10 (0, 0)
      (fun _ => ⟨by decide, by decide, by decide⟩)
  have h3 : Step cex3b cex3c :=
    Step.click cex3b 2 .k1 false mines10 (7, 1) (fun h => absurd h (by decide!))
  exact Relation.ReflTransGen.tail
    (Relation.ReflTransGen.tail (Relation.ReflTransGen.single h1) h2) h3

/-- Claim C3, amended: over all reachable states the implication holds
one way — win set implies unrevealed = minesTotal; check_win itself
sets win whenever unrevealed = minesTotal at the moment it runs; and
flag placement has no effect on win detection (check_win's verdict is
invariant under any change of the flagged set). -/
theorem claim3_amended :
    (∀ s : GameState, Reachable s → s.win = true → unrevealedCount s = s.minesTotal) ∧
    (∀ s : GameState, unrevealedCount s = s.minesTotal → (checkWin s).win = true) ∧
    (∀ (s : GameState) (g : Coord → Bool),
      (checkWin { s with flagged := g }).win = (checkWin s).win) :=
  ⟨fun _ hr => reachable_win_inv hr, fun _ h => checkWin_sets h,
    fun s g => checkWin_flag_invariant s g⟩

/-- Claim C3, witness: the amended theorem applied to the reachable
initial state. -/
theorem claim3_witness :
    Reachable initState ∧
    (initState.win = true → unrevealedCount initState = initState.minesTotal) ∧
    (unrevealedCount initState = initState.minesTotal → (checkWin initState).win = true) :=
  ⟨Relation.ReflTransGen.refl,
    claim3_amended.1 initState Relation.ReflTransGen.refl,
    claim3_amended.2.1 initState⟩

/-- Claim C4, code bug: on a fresh medium game (35 mines, mines_left
35), right-clicking the unrevealed cell (1, 1) places a flag and sets
mines_left to 36 — the code adds 1 on flag placement and subtracts 1 on
removal, the reverse of the claimed decrement to 34; mines_left does
not equal mine count minus flags placed. -/
theorem claim4_flag_counter :
    initState.minesTotal = 35 ∧ initState.minesLeft = 35 ∧
    initState.flagged (1, 1) = false ∧ initState.revealed (1, 1) = false ∧
    (handleClick (stepFuel initState) 1 .none true [] (1, 1) initState).flagged (1, 1)
      = true ∧
    (handleClick (stepFuel initState) 1 .none true [] (1, 1) initState).minesLeft = 36 ∧
    ¬((36 : ℤ) = 35 - 1) :=
  ⟨rfl, rfl, rfl, rfl, by decide, by decide, by decide⟩

/-- Claim C5: the flood fill terminates and is fuel-indifferent — any
fuel above the unrevealed-cell count gives the same result, and on
boards up to 20x20 any fuel above 400 does; the cells revealed are
exactly the prior revealed set plus the reachable flood region (the
connected zero component through in-bounds, unflagged, unrevealed cells
together with its admissible border, so out-of-bounds, flagged and
already-revealed cells are skipped); and the instrumented trace shows
each newly revealed cell is marked exactly once: the trace has no
duplicates and lists exactly the newly revealed cells. -/
theorem claim5_flood (f : ℕ) (now : ℚ) (s : GameState) (p : Coord)
    (hf : unrevealedCount s < f) :
    (∀ g, unrevealedCount s < g → revealCell g now s p = revealCell f now s p) ∧
    (s.gridSize ≤ 20 → ∀ g1 g2, 400 < g1 → 400 < g2 →
      revealCell g1 now s p = revealCell g2 now s p) ∧
    (∀ q, (revealCell f now s p).revealed q = true ↔
      (s.revealed q = true ∨ floodReach s p q)) ∧
    (revealCellT f now s p).1 = revealCell f now s p ∧
    (revealCellT f now s p).2.Nodup ∧
    (∀ q, q ∈ (revealCellT f now s p).2 ↔
      (s.revealed q = false ∧ floodReach s p q)) := by
  have e : ∀ g, unrevealedCount s < g →
      revealCell g now s p = revealCell (unrevealedCount s + 1) now s p :=
    fun g hg => revealCell_fuel_ge (by omega) (by omega)
  have h400 : s.gridSize ≤ 20 → unrevealedCount s ≤ 400 := by
    intro h20
    have h1 : unrevealedCount s ≤ (cellList s.gridSize).length :=
      List.length_filter_le _ _
    rw [cellList_length] at h1
    have h2 : s.gridSize.toNat ≤ 20 := by omega
    have h3 : s.gridSize.toNat * s.gridSize.toNat ≤ 20 * 20 := Nat.mul_le_mul h2 h2
    omega
  obtain ⟨hiff, hnd, hunrev⟩ := revealCellT_spec f s p
  refine ⟨fun g hg => (e g hg).trans (e f hf).symm,
    fun h20 g1 g2 hg1 hg2 => ?_, fun q => ?_, revealCellT_fst f s p, hnd, fun q => ?_⟩
  · have hc := h400 h20
    exact (e g1 (by omega)).trans (e g2 (by omega)).symm
  · constructor
    · exact revealCell_sound f s p q
    · rintro (h | h)
      · exact revealCell_revealed_of h
      · exact revealCell_complete f s p q hf h
  · constructor
    · intro hq
      have hz := hunrev q hq
      have h1 := (hiff q).mpr (Or.inr hq)
      rw [revealCellT_fst f s p] at h1
      rcases revealCell_sound f s p q h1 with h2 | h2
      · rw [hz] at h2
        cases h2
      · exact ⟨hz, h2⟩
    · rintro ⟨hr, hreach⟩
      have h1 : (revealCell f now s p).revealed q = true :=
        revealCell_complete f s p q hf hreach
      rw [← revealCellT_fst f s p] at h1
      rcases (hiff q).mp h1 with h2 | h2
      · rw [hr] at h2
        cases h2
      · exact h2

/-- Claim C5, witness: the flood theorem instantiated on the 2x2
all-zero board with fuel 5 at corner (0, 0). -/
theorem claim5_witness :
    unrevealedCount flood2 < 5 ∧
    ((∀ g, unrevealedCount flood2 < g →
        revealCell g 0 flood2 (0, 0) = revealCell 5 0 flood2 (0, 0)) ∧
      (flood2.gridSize ≤ 20 → ∀ g1 g2, 400 < g1 → 400 < g2 →
        revealCell g1 0 flood2 (0, 0) = revealCell g2 0 flood2 (0, 0)) ∧
      (∀ q, (revealCell 5 0 flood2 (0, 0)).revealed q = true ↔
        (flood2.revealed q = true ∨ floodReach flood2 (0, 0) q)) ∧
      (revealCellT 5 0 flood2 (0, 0)).1 = revealCell 5 0 flood2 (0, 0) ∧
      (revealCellT 5 0 flood2 (0, 0)).2.Nodup ∧
      (∀ q, q ∈ (revealCellT 5 0 flood2 (0, 0)).2 ↔
        (flood2.revealed q = false ∧ floodReach flood2 (0, 0) q))) :=
  ⟨by decide, claim5_flood 5 0 flood2 (0, 0) (by decide)⟩

/-- Claim C6, counterexample to "max_combo is the running maximum of
current_combo": one slow reveal at t = 2 on a fresh game sets
current_combo to 1, so the running maximum of current_combo over the
session is 1, but the code only feeds current_combo into max_combo on
fast reveals (gap < 1.0 s), leaving max_combo at 0. -/
theorem claim6_counterexample :
    (comboSeq [(2 : ℚ)] initState).maxCombo = 0 ∧
    comboRunningMax [(2 : ℚ)] initState = 1 ∧
    ¬((comboSeq [(2 : ℚ)] initState).maxCombo = comboRunningMax [(2 : ℚ)] initState) :=
  ⟨by decide, by decide, by decide⟩

/-- Claim C6, amended: a reveal with gap < 1.0 s since the previous
reveal increments current_combo and folds the new value into max_combo;
a reveal with gap ≥ 1.0 s resets current_combo to 1 and leaves
max_combo unchanged; hence over any timestamp sequence max_combo is the
running maximum over the fast reveals only, not over every reveal. -/
theorem claim6_amended :
    (∀ (now : ℚ) (s : GameState),
      (now - s.lastRevealTime < 1 → (comboUpdate now s).combo = s.combo + 1 ∧
        (comboUpdate now s).maxCombo = max s.maxCombo (s.combo + 1)) ∧
      (¬now - s.lastRevealTime < 1 → (comboUpdate now s).combo = 1 ∧
        (comboUpdate now s).maxCombo = s.maxCombo)) ∧
    (∀ (ts : List ℚ) (s : GameState),
      (comboSeq ts s).maxCombo = (comboFastTrace ts s).foldl max s.maxCombo) :=
  ⟨fun _ _ => ⟨fun h => ⟨comboUpdate_combo_fast h, comboUpdate_max_fast h⟩,
    fun h => ⟨comboUpdate_combo_slow h, comboUpdate_max_slow h⟩⟩,
    fun ts s => comboSeq_maxCombo ts s⟩

/-- Claim C6, witness: the amended theorem applied at a fast reveal at
t = 1/2 on the fresh game and at the sequence [2, 5/2]. -/
theorem claim6_witness :
    ((1 : ℚ) / 2 - initState.lastRevealTime < 1) ∧
    (comboUpdate ((1 : ℚ) / 2) initState).combo = initState.combo + 1 ∧
    (comboSeq [(2 : ℚ), 5 / 2] initState).maxCombo =
      (comboFastTrace [(2 : ℚ), 5 / 2] initState).foldl max initState.maxCombo :=
  ⟨by decide, ((claim6_amended.1 ((1 : ℚ) / 2) initState).1 (by decide)).1,
    claim6_amended.2 [(2 : ℚ), 5 / 2] initState⟩

/-- Claim C7: chord_reveal returns false and leaves the state unchanged
when the target is unrevealed or its value is at most 0 (zero cell or
mine), and likewise when the target is applicable but the count of
flagged cells in its 9-neighbourhood differs from its value; it returns
true whenever that flag count equals the value, regardless of whether
any neighbour actually needed revealing. -/
theorem claim7_chord_guards (f : ℕ) (now : ℚ) (s : GameState) (p : Coord) :
    (s.revealed p = false ∨ s.grid p ≤ 0 → chordReveal f now s p = (s, false)) ∧
    (s.revealed p = true → 0 < s.grid p → ¬((chordFlagCount s p : ℤ) = s.grid p) →
      chordReveal f now s p = (s, false)) ∧
    (s.revealed p = true → 0 < s.grid p → (chordFlagCount s p : ℤ) = s.grid p →
      (chordReveal f now s p).2 = true) :=
  ⟨fun h => chordReveal_not_applicable h,
    fun h1 h2 h3 => chordReveal_mismatch h1 h2 h3,
    fun h1 h2 h3 => by rw [chordReveal_match h1 h2 h3]⟩

/-- Claim C7, witness: the guard theorem applied on c7state to the
unrevealed cell (0, 0), the mismatched target (3, 3) and the matched
target (1, 1). -/
theorem claim7_witness :
    (c7state.revealed (0, 0) = false ∨ c7state.grid (0, 0) ≤ 0) ∧
    chordReveal 1 0 c7state (0, 0) = (c7state, false) ∧
    c7state.revealed (3, 3) = true ∧ 0 < c7state.grid (3, 3) ∧
    ¬((chordFlagCount c7state (3, 3) : ℤ) = c7state.grid (3, 3)) ∧
    chordReveal 1 0 c7state (3, 3) = (c7state, false) ∧
    c7state.revealed (1, 1) = true ∧ 0 < c7state.grid (1, 1) ∧
    (chordFlagCount c7state (1, 1) : ℤ) = c7state.grid (1, 1) ∧
    (chordReveal 1 0 c7state (1, 1)).2 = true :=
  ⟨Or.inl (by decide),
    (claim7_chord_guards 1 0 c7state (0, 0)).1 (Or.inl (by decide)),
    by decide, by decide, by decide,
    (claim7_chord_guards 1 0 c7state (3, 3)).2.1 (by decide) (by decide) (by decide),
    by decide, by decide, by decide,
    (claim7_chord_guards 1 0 c7state (1, 1)).2.2 (by decide) (by decide) (by decide)⟩

/-- Claim C8, code bug: TimeFreeze is active and unexpired (activated
at wall-clock 10 with captured elapsed_time 3, observed at 12, within
the 5-second window) and the per-tick pin TimeFreezeePowerUp.update
would indeed hold elapsed_time at 3 — but the main loop never polls
PowerUp.update, so an actual tick overwrites elapsed_time with the
wall-clock-derived 12 instead of keeping it pinned at 3. -/
theorem claim8_freeze_not_polled :
    ((12 : ℚ) - 10 ≤ 5) ∧ c8state.freezeActive = true ∧ c8state.frozenTime = 3 ∧
    freezeExpired 12 c8state = false ∧
    (freezeUpdate 12 c8state).elapsedTime = 3 ∧
    (tick 12 c8state).elapsedTime = 12 ∧
    ¬((tick 12 c8state).elapsedTime = c8state.frozenTime) :=
  ⟨by decide, rfl, rfl, by decide, by decide, by decide, by decide⟩

/-- Claim C9, counterexample: reset_game does not clear the power-up
active flags or the misplaced-flags set — after resetting a game with
SafetyNet active and one recorded misplaced flag, safetyActive is still
true and misplacedFlags is still nonempty. -/
theorem claim9_counterexample :
    c9state.safetyActive = true ∧
    (resetGame c9state).safetyActive = true ∧
    (resetGame c9state).misplacedFlags = [((0 : ℤ), (0 : ℤ))] ∧
    ¬((resetGame c9state).misplacedFlags = []) :=
  ⟨rfl, rfl, rfl, by decide⟩

/-- Claim C9, amended: reset_game clears the board (all cells
unrevealed, unflagged, no mines), resets game_over, win, first_click,
the timer fields, mines_left and both combo counters, and preserves the
difficulty settings, the power-up charge counts and the achievement
state — but it also preserves the power-up active flags and the
misplaced-flags set, which the claim said it clears. -/
theorem claim9_reset_effects (s : GameState) :
    (resetGame s).grid = (fun _ => 0) ∧
    (resetGame s).revealed = (fun _ => false) ∧
    (resetGame s).flagged = (fun _ => false) ∧
    (resetGame s).gameOver = false ∧
    (resetGame s).win = false ∧
    (resetGame s).firstClick = true ∧
    (resetGame s).startTime = none ∧
    (resetGame s).elapsedTime = 0 ∧
    (resetGame s).minesLeft = (s.minesTotal : ℤ) ∧
    (resetGame s).combo = 0 ∧
    (resetGame s).maxCombo = 0 ∧
    (resetGame s).lastRevealTime = 0 ∧
    (resetGame s).difficulty = s.difficulty ∧
    (resetGame s).gridSize = s.gridSize ∧
    (resetGame s).minesTotal = s.minesTotal ∧
    (resetGame s).chargesReveal = s.chargesReveal ∧
    (resetGame s).chargesFreeze = s.chargesFreeze ∧
    (resetGame s).chargesSafety = s.chargesSafety ∧
    (resetGame s).achievements = s.achievements ∧
    (resetGame s).revealActive = s.revealActive ∧
    (resetGame s).freezeActive = s.freezeActive ∧
    (resetGame s).safetyActive = s.safetyActive ∧
    (resetGame s).misplacedFlags = s.misplacedFlags :=
  ⟨rfl, rfl, rfl, rfl, rfl, rfl, rfl, rfl, rfl, rfl, rfl, rfl, rfl, rfl, rfl, rfl,
    rfl, rfl, rfl, rfl, rfl, rfl, rfl⟩

/-- Claim C10: when the triggering click is itself fast (gap < 1.0 s
since the previous reveal), every cell the flood fill marks applies the
combo update individually and lands in the fast window (the cascade
shares one timestamp), so current_combo grows by exactly the number of
cells revealed, max_combo reaches that value when anything was
revealed, and a max_combo of 10 or more sets the combo-mastery
achievement on the next check. -/
theorem claim10_flood_combo (f : ℕ) (now : ℚ) (s : GameState) (p : Coord)
    (hfast : now - s.lastRevealTime < 1) :
    (revealCellT f now s p).1.combo = s.combo + (revealCellT f now s p).2.length ∧
    ((revealCellT f now s p).2 ≠ [] →
      (revealCellT f now s p).1.maxCombo =
        max s.maxCombo (s.combo + (revealCellT f now s p).2.length)) ∧
    (∀ t : GameState, 10 ≤ t.maxCombo →
      (checkAchievements t).achievements.comboMaster = true) := by
  obtain ⟨_, h2, h3⟩ := revealCellT_combo f s p hfast
  exact ⟨h2, fun hne => (h3 hne).1, fun _ ht => checkAchievements_comboMaster ht⟩

/-- Claim C10, witness: one click at t = 1/2 on the 4x4 all-zero board
reveals all 16 cells, driving combo and max_combo from 0 to 16 and
unlocking combo mastery. -/
theorem claim10_witness :
    ((1 : ℚ) / 2 - flood4.lastRevealTime < 1) ∧
    ((revealCellT 20 ((1 : ℚ) / 2) flood4 (0, 0)).1.combo =
        flood4.combo + (revealCellT 20 ((1 : ℚ) / 2) flood4 (0, 0)).2.length ∧
      ((revealCellT 20 ((1 : ℚ) / 2) flood4 (0, 0)).2 ≠ [] →
        (revealCellT 20 ((1 : ℚ) / 2) flood4 (0, 0)).1.maxCombo =
          max flood4.maxCombo
            (flood4.combo + (revealCellT 20 ((1 : ℚ) / 2) flood4 (0, 0)).2.length)) ∧
      (∀ t : GameState, 10 ≤ t.maxCombo →
        (checkAchievements t).achievements.comboMaster = true)) ∧
    (revealCellT 20 ((1 : ℚ) / 2) flood4 (0, 0)).2.length = 16 ∧
    (revealCellT 20 ((1 : ℚ) / 2) flood4 (0, 0)).1.maxCombo = 16 ∧
    (checkAchievements
      (revealCellT 20 ((1 : ℚ) / 2) flood4 (0, 0)).1).achievements.comboMaster = true :=
  ⟨by decide, claim10_flood_combo 20 ((1 : ℚ) / 2) flood4 (0, 0) (by decide),
    by decide!, by decide!, by decide!⟩

end ClaimSection


end Mines
